import Mathlib

/-!
A shallow embedding of pgguclifetimes: the model of
`src/tools/pgguclifetimes/pgguclifetimes.c` and `vector.c`.

* C strings are the list of their characters before the terminating NUL.
* A `char *` that may be NULL is an `Option`.
* A function of the program that can dereference NULL, call `abort()` or read
  outside an object returns `none` on that path.
* `Assert` is compiled out (no `USE_ASSERT_CHECKING`); `size_t` has 64 bits and
  `unsigned int` 32.
* The results of the C library and of libclang (allocation, `realpath`, the
  compilation database, the parsed translation unit) are inputs of the model.
-/

namespace PgGucLifetimes

/-! ## C strings -/

/-- The characters of a C string before its terminating NUL. -/
abbrev CStr := List Char

/-- A pointer to a C string; `none` is NULL. -/
abbrev CharPtr := Option CStr

/-- Sign of `strcmp(a, b)`: the end of a string compares below every character. -/
def strcmp : CStr → CStr → Int
  | [], [] => 0
  | [], _ :: _ => -1
  | _ :: _, [] => 1
  | a :: as, b :: bs => if a = b then strcmp as bs else if a < b then -1 else 1

/-- Sign of `strncmp(a, b, n)`: at most `n` characters are compared. -/
def strncmp : CStr → CStr → Nat → Int
  | _, _, 0 => 0
  | [], [], _ + 1 => 0
  | [], _ :: _, _ + 1 => -1
  | _ :: _, [], _ + 1 => 1
  | a :: as, b :: bs, n + 1 => if a = b then strncmp as bs n else if a < b then -1 else 1

/-- Length of a C string. -/
def strlen (s : CStr) : Nat := s.length

/-- Offset of the first occurrence of `needle` in `haystack`, as `strstr` finds it;
`none` is the NULL result. -/
def strstr : CStr → CStr → Option Nat
  | [], needle => if needle.isEmpty then some 0 else none
  | c :: cs, needle =>
    if needle.isPrefixOf (c :: cs) then some 0
    else (strstr cs needle).map (· + 1)

/-! ## vector.c -/

/-- The `struct vector` of vector.h. `data` lists the slots that are allocated
(a slot never written holds `none`); `cap` and `len` are the two `size_t` fields. -/
structure vector where
  data : List CharPtr
  cap : Nat
  len : Nat
  deriving DecidableEq, Repr

/-- The zero-initialised vector `{ 0 }`. -/
def vector.zero : vector := ⟨[], 0, 0⟩

/-- The values a loop `for (i = 0; i < vec.len; i++)` reads as `vec.data[i]`:
`none` for a read past the allocated slots. -/
def vector.slots (vec : vector) : List (Option CharPtr) :=
  (List.range vec.len).map (fun i => vec.data.get? i)

/-- Width of `size_t`. -/
def SIZE_MAX1 : Nat := 2 ^ 64

/-- Width of `unsigned int`. -/
def UINT_MAX1 : Nat := 2 ^ 32

/-- Size of a `char *` (LP64). -/
def SIZEOF_PTR : Nat := 8

/-- Number of `char *` slots in an allocation of `n * sizeof(*vec->data)` bytes, the
product being computed in `size_t`. -/
def slots_of (n : Nat) : Nat :=
  ((n * SIZEOF_PTR) % SIZE_MAX1) / SIZEOF_PTR

/-- Model of `vector_init`; `ok` says whether `malloc` returned memory. -/
def vector_init (_vec : vector) (capacity : Nat) (ok : Bool) : Bool × vector :=
  if !ok then
    (false, { data := [], cap := 0, len := 0 })
  else
    (true, { data := List.replicate (slots_of capacity) none, cap := capacity, len := 0 })

/-- Slots of `data` after a successful `realloc` to `n` slots. -/
def realloc (data : List CharPtr) (n : Nat) : List CharPtr :=
  data.take n ++ List.replicate (n - data.length) none

/-- Model of `vector_append`; `ok` says whether `realloc`, when it is called,
returned memory. A store to `data[len]` past the allocated slots is dropped. -/
def vector_append (vec : vector) (item : CharPtr) (ok : Bool) : Bool × vector :=
  if vec.len = vec.cap then
    let vec1 : vector := { vec with cap := (vec.cap * 2) % SIZE_MAX1 }
    if !ok then
      (false, vec1)
    else
      let vec2 : vector := { vec1 with data := realloc vec1.data (slots_of vec1.cap) }
      (true, { vec2 with data := vec2.data.set vec2.len item, len := vec2.len + 1 })
  else
    (true, { vec with data := vec.data.set vec.len item, len := vec.len + 1 })

/-! ## libclang cursors -/

/-- The cursor kinds the program tells apart. -/
inductive CXCursorKind where
  | VarDecl
  | AnnotateAttr
  | InitListExpr
  | UnaryOperator
  | DeclRefExpr
  | Other
  deriving DecidableEq, Repr

/-- A cursor with what the program reads from it. -/
structure CXCursor where
  /-- the field `cursor.kind` -/
  kind : CXCursorKind
  /-- result of `clang_getCursorSpelling` -/
  spelling : CStr
  /-- file name of `clang_getCursorLocation` -/
  filename : CStr
  /-- line of `clang_getCursorLocation` -/
  line : Nat
  /-- column of `clang_getCursorLocation` -/
  column : Nat
  /-- result of `clang_Location_isFromMainFile` -/
  from_main_file : Bool
  /-- result of `clang_Cursor_hasVarDeclGlobalStorage` -/
  global_storage : Bool
  /-- whether the declaration has thread storage (`__thread`); the program never asks -/
  thread_storage : Bool
  /-- spellings of the fields `clang_Type_visitFields` walks for the element type -/
  element_fields : List CStr
  /-- the direct children `clang_visitChildren` walks -/
  children : List CXCursor

/-- Result of a child visitor. -/
inductive CXChildVisitResult where
  | Break
  | Continue
  | Recurse
  deriving DecidableEq, Repr

mutual
/-- Model of `clang_visitChildren(parent, visitor, client_data)` over the state type `σ`:
the direct children are visited in order; `Break` ends the walk, `Continue` goes
to the next sibling, `Recurse` walks the children of the child first. A visitor
that returns `none` ends everything. The `Bool` is the result of
`clang_visitChildren`: whether the walk was ended by `Break`. -/
def clang_visitChildren {σ : Type} (visitor : CXCursor → CXCursor → σ → Option (CXChildVisitResult × σ)) :
    CXCursor → σ → Option (Bool × σ)
  | c@⟨_, _, _, _, _, _, _, _, _, cs⟩, s => visitChildrenList visitor c cs s
/-- The walk of `clang_visitChildren` over the children that are left. -/
def visitChildrenList {σ : Type} (visitor : CXCursor → CXCursor → σ → Option (CXChildVisitResult × σ))
    (parent : CXCursor) : List CXCursor → σ → Option (Bool × σ)
  | [], s => some (false, s)
  | c :: cs, s =>
    match visitor c parent s with
    | none => none
    | some (CXChildVisitResult.Break, s1) => some (true, s1)
    | some (CXChildVisitResult.Continue, s1) => visitChildrenList visitor parent cs s1
    | some (CXChildVisitResult.Recurse, s1) =>
      match clang_visitChildren visitor c s1 with
      | none => none
      | some (true, s2) => some (true, s2)
      | some (false, s2) => visitChildrenList visitor parent cs s2
end

/-- Result of a field visitor (`enum CXVisitorResult`). -/
inductive CXVisitorResult where
  | Break
  | Continue
  deriving DecidableEq, Repr

/-- Model of `clang_Type_visitFields`: the fields are visited in order until the
visitor returns `CXVisit_Break`. -/
def clang_Type_visitFields {σ : Type} (visitor : CStr → σ → Option (CXVisitorResult × σ)) :
    List CStr → σ → Option σ
  | [], s => some s
  | f :: fs, s =>
    match visitor f s with
    | none => none
    | some (CXVisitorResult.Break, s1) => some s1
    | some (CXVisitorResult.Continue, s1) => clang_Type_visitFields visitor fs s1

/-! ## Program state -/

/-- The objects `ctx->client_data` can point to: NULL, the `issues` of `main`, the
`annotated` of `visit_global_variable`, the `field_index` of `visit_guc_tables`
and the `iter` of `visit_guc`. -/
inductive Ptr where
  | null
  | issues
  | annotated
  | field_index
  | iter
  deriving DecidableEq, Repr

/-- The `struct field_iterator`. -/
structure field_iterator where
  curr : Nat
  want : Nat
  deriving DecidableEq, Repr

/-- The `struct parse_context`. -/
structure parse_context where
  err : Int
  client_data : Ptr
  deriving DecidableEq, Repr

/-- What the program writes to a stream. -/
inductive Output where
  /-- the line `error()` prints: file name, line, column, variable and the message -/
  | report (filename : CStr) (line column : Nat) (var : CStr) (message : String)
  /-- "failed to resolve ..." -/
  | failed_to_resolve (path : CharPtr)
  /-- "out of memory" -/
  | out_of_memory
  /-- "failed to parse the translation unit (...)" -/
  | failed_to_parse
  /-- "failed to find ... in compilation database" -/
  | failed_to_find (file : CharPtr)
  /-- "failed to change into the compilation database directory: ..." -/
  | failed_to_chdir
  /-- "Missing required argument for ..." -/
  | missing_argument
  /-- "Unrecognized option: ..." -/
  | unrecognized_option
  /-- "No compilation database argument" -/
  | no_compdb
  /-- the text of `usage()` -/
  | usage
  deriving DecidableEq, Repr

/-- The file-scope variables of pgguclifetimes.c, the objects that are reached
through `ctx->client_data`, the two output streams and the allocator. -/
structure State where
  /-- `static bool fail_fast` -/
  fail_fast : Bool
  /-- `static bool quiet` -/
  quiet : Bool
  /-- `static struct vector excludes` -/
  excludes : vector
  /-- `static struct vector includes` -/
  includes : vector
  /-- `static struct vector gucs` -/
  gucs : vector
  /-- the `struct parse_context ctx` of `analyze` that every visitor receives -/
  ctx : parse_context
  /-- `unsigned int issues` of `main` -/
  issues : Nat
  /-- `bool annotated` of `visit_global_variable` -/
  annotated : Bool
  /-- `unsigned int field_index` of `visit_guc_tables` -/
  field_index : Nat
  /-- `struct field_iterator iter` of `visit_guc` -/
  iter : field_iterator
  /-- what was written to standard error, oldest first -/
  stderr : List Output
  /-- what was written to standard output, oldest first -/
  stdout : List Output
  /-- results of the coming allocation requests (`true`: memory is returned);
  after the list is used up every request succeeds -/
  heap : List Bool
  deriving DecidableEq, Repr

/-- The state at the start of `main`. -/
def State.init (heap : List Bool) : State :=
  { fail_fast := false, quiet := false,
    excludes := vector.zero, includes := vector.zero, gucs := vector.zero,
    ctx := ⟨0, Ptr.null⟩, issues := 0, annotated := false, field_index := 0,
    iter := ⟨0, 0⟩, stderr := [], stdout := [], heap := heap }

/-- One allocation request (`malloc`, `realloc`, `strdup`, `clang_createIndex`). -/
def State.alloc (s : State) : Bool × State :=
  match s.heap with
  | [] => (true, s)
  | b :: rest => (b, { s with heap := rest })

/-- Read the `unsigned int` a pointer refers to. -/
def State.load_uint (s : State) : Ptr → Option Nat
  | Ptr.issues => some s.issues
  | Ptr.field_index => some s.field_index
  | _ => none

/-- Increment the `unsigned int` a pointer refers to: `(*p)++`. -/
def State.incr_uint (s : State) : Ptr → Option State
  | Ptr.issues => some { s with issues := (s.issues + 1) % UINT_MAX1 }
  | Ptr.field_index => some { s with field_index := (s.field_index + 1) % UINT_MAX1 }
  | _ => none

/-! ## pgguclifetimes.c: the annotation check -/

/-- The array `guc_lifetimes`. -/
def guc_lifetimes : List CStr :=
  [ "dynamic_singleton".toList,
    "global".toList,
    "internal_guc".toList,
    "postmaster_guc".toList,
    "session_guc".toList,
    "session_local".toList,
    "sighup_guc".toList,
    "static_singleton".toList,
    "suset_guc".toList,
    "userset_guc".toList ]

/-- Model of `visit_guc_lifetime`. `ctx->client_data` is read as a `bool *`. -/
def visit_guc_lifetime (cursor _parent : CXCursor) (s : State) :
    Option (CXChildVisitResult × State) :=
  match s.ctx.client_data with
  | Ptr.annotated =>
    let s1 : State :=
      if guc_lifetimes.any (fun t => strcmp cursor.spelling t = 0) then
        { s with annotated := true }
      else s
    some (if s1.annotated then CXChildVisitResult.Break else CXChildVisitResult.Continue, s1)
  | _ => none

/-- Model of `visit_annotation`. -/
def visit_annotation (cursor parent : CXCursor) (s : State) :
    Option (CXChildVisitResult × State) :=
  match cursor.kind with
  | CXCursorKind.AnnotateAttr => visit_guc_lifetime cursor parent s
  | _ => some (CXChildVisitResult.Continue, s)

/-- Model of `error`: nothing is written in quiet mode. -/
def error (s : State) (cursor : CXCursor) (fmt : String) : State :=
  if s.quiet then s
  else
    { s with stderr := s.stderr ++
        [Output.report cursor.filename cursor.line cursor.column cursor.spelling fmt] }

/-- The loop of `visit_global_variable` over `gucs`: `some true` when a name equal
to `variable_c` is found, `none` when `strcmp` is handed NULL. -/
def gucs_lookup (variable_c : CStr) : List (Option CharPtr) → Option Bool
  | [] => some false
  | some (some guc) :: rest =>
    if strcmp variable_c guc = 0 then some true else gucs_lookup variable_c rest
  | _ :: _ => none

/-- Model of `visit_global_variable`. -/
def visit_global_variable (cursor _parent : CXCursor) (s0 : State) :
    Option (CXChildVisitResult × State) :=
  let s : State := { s0 with annotated := false }
  if !cursor.from_main_file then some (CXChildVisitResult.Continue, s)
  else if !cursor.global_storage then some (CXChildVisitResult.Continue, s)
  else if cursor.spelling.get? 0 = some 'y' && cursor.spelling.get? 1 = some 'y' then
    some (CXChildVisitResult.Continue, s)
  else
    match gucs_lookup cursor.spelling s.gucs.slots with
    | none => none
    | some true => some (CXChildVisitResult.Continue, s)
    | some false =>
      let issues_ptr := s.ctx.client_data
      let s1 : State := { s with ctx := { s.ctx with client_data := Ptr.annotated } }
      match clang_visitChildren visit_annotation cursor s1 with
      | none => none
      | some (_, s2) =>
        let reported : Option State :=
          if !s2.annotated then
            (s2.incr_uint issues_ptr).map (fun s3 => error s3 cursor "is missing a lifetime annotation")
          else some s2
        match reported with
        | none => none
        | some s4 =>
          let s5 : State := { s4 with ctx := { s4.ctx with client_data := issues_ptr } }
          some (if s5.fail_fast && !s5.annotated then CXChildVisitResult.Break
                else CXChildVisitResult.Continue, s5)

/-- Model of `visit_translation_unit`. -/
def visit_translation_unit (cursor parent : CXCursor) (s : State) :
    Option (CXChildVisitResult × State) :=
  match cursor.kind with
  | CXCursorKind.VarDecl => visit_global_variable cursor parent s
  | _ => some (CXChildVisitResult.Continue, s)

/-! ## pgguclifetimes.c: the exception names of guc_tables.c -/

/-- The value of `ENOMEM`. -/
def ENOMEM : Int := 12

/-- Model of `visit_initializer`. `abort()` and the write through the NULL that
`strstr` returns when the name has no "_address" are `none`. -/
def visit_initializer (cursor _parent : CXCursor) (s : State) :
    Option (CXChildVisitResult × State) :=
  if cursor.kind ≠ CXCursorKind.DeclRefExpr then none
  else
    let (dup_ok, s1) := s.alloc
    if !dup_ok then
      some (CXChildVisitResult.Break, { s1 with ctx := { s1.ctx with err := ENOMEM } })
    else
      match strstr cursor.spelling "_address".toList with
      | none => none
      | some off =>
        let field_c : CStr := cursor.spelling.take off
        let (grow_ok, s2) := if s1.gucs.len = s1.gucs.cap then s1.alloc else (true, s1)
        let (ok, gucs1) := vector_append s2.gucs (some field_c) grow_ok
        let s3 : State := { s2 with gucs := gucs1 }
        if !ok then
          some (CXChildVisitResult.Break, { s3 with ctx := { s3.ctx with err := ENOMEM } })
        else
          some (CXChildVisitResult.Break, s3)

/-- Model of `visit_guc_fields`. `ctx->client_data` is read as a
`struct field_iterator *`. -/
def visit_guc_fields (cursor _parent : CXCursor) (s : State) :
    Option (CXChildVisitResult × State) :=
  match s.ctx.client_data with
  | Ptr.iter =>
    if s.iter.curr = s.iter.want then
      match cursor.kind with
      | CXCursorKind.UnaryOperator =>
        (clang_visitChildren visit_initializer cursor s).map
          (fun r => (CXChildVisitResult.Break, r.2))
      | _ => some (CXChildVisitResult.Break, s)
    else
      some (CXChildVisitResult.Continue,
        { s with iter := { s.iter with curr := (s.iter.curr + 1) % UINT_MAX1 } })
  | _ => none

/-- Model of `visit_guc`. `ctx->client_data` is read as an `unsigned int *`. -/
def visit_guc (cursor _parent : CXCursor) (s : State) :
    Option (CXChildVisitResult × State) :=
  match s.load_uint s.ctx.client_data with
  | none => none
  | some want =>
    let save := s.ctx.client_data
    let s1 : State :=
      { s with iter := { curr := 0, want := want },
               ctx := { s.ctx with client_data := Ptr.iter } }
    let visited : Option State :=
      match cursor.kind with
      | CXCursorKind.InitListExpr =>
        (clang_visitChildren visit_guc_fields cursor s1).map (fun r => r.2)
      | _ => some s1
    visited.map (fun s2 =>
      (CXChildVisitResult.Continue, { s2 with ctx := { s2.ctx with client_data := save } }))

/-- Model of `visit_guc_table`. -/
def visit_guc_table (cursor _parent : CXCursor) (s : State) :
    Option (CXChildVisitResult × State) :=
  match cursor.kind with
  | CXCursorKind.InitListExpr =>
    (clang_visitChildren visit_guc cursor s).map (fun r => (CXChildVisitResult.Continue, r.2))
  | _ => some (CXChildVisitResult.Continue, s)

/-- Model of `visit_config_type`; the field cursor is given by its spelling.
`ctx->client_data` is read as an `unsigned int *`. -/
def visit_config_type (field : CStr) (s : State) : Option (CXVisitorResult × State) :=
  if strcmp field "variable_addr".toList = 0 then
    some (CXVisitorResult.Break, s)
  else
    (s.incr_uint s.ctx.client_data).map (fun s1 => (CXVisitorResult.Continue, s1))

/-- The array `guc_tables` of `visit_guc_tables`. -/
def guc_tables : List CStr :=
  [ "ConfigureNamesBool".toList,
    "ConfigureNamesEnum".toList,
    "ConfigureNamesInt".toList,
    "ConfigureNamesReal".toList,
    "ConfigureNamesString".toList ]

/-- Model of `visit_guc_tables`. The return for a variable without global storage
comes before `ctx->client_data = save`. -/
def visit_guc_tables (cursor _parent : CXCursor) (s0 : State) :
    Option (CXChildVisitResult × State) :=
  let save := s0.ctx.client_data
  let s : State :=
    { s0 with field_index := 0, ctx := { s0.ctx with client_data := Ptr.field_index } }
  match cursor.kind with
  | CXCursorKind.VarDecl =>
    if !cursor.global_storage then some (CXChildVisitResult.Continue, s)
    else
      let walked : Option State :=
        if guc_tables.any (fun t => strcmp cursor.spelling t = 0) then
          match clang_Type_visitFields visit_config_type cursor.element_fields s with
          | none => none
          | some s1 => (clang_visitChildren visit_guc_table cursor s1).map (fun r => r.2)
        else some s
      walked.map (fun s2 =>
        (CXChildVisitResult.Continue, { s2 with ctx := { s2.ctx with client_data := save } }))
  | _ =>
    some (CXChildVisitResult.Continue, { s with ctx := { s.ctx with client_data := save } })

/-! ## pgguclifetimes.c: one compile command -/

/-- A compile command of the compilation database. The number of arguments is an
`unsigned int`. -/
structure CXCompileCommand where
  /-- result of `clang_CompileCommand_getFilename` -/
  filename : CStr
  /-- the arguments `clang_CompileCommand_getArg` returns for `0 .. getNumArgs - 1` -/
  args : List CStr
  /-- `clang_CompileCommand_getNumArgs` fits its return type -/
  args_lt : args.length < UINT_MAX1

/-- Model of `ignore_arg`: `strstr(arg, "-W") == arg`. -/
def ignore_arg (arg : CStr) : Bool :=
  strstr arg "-W".toList = some 0

/-- The loop of `copy_args` over the arguments it reads (`none`: no such argument,
the NULL string is handed to `strstr`). The `Bool` is the value returned. -/
def copy_args_loop : List (Option CStr) → vector → State → Option (Bool × vector × State)
  | [], args, s => some (true, args, s)
  | none :: _, _, _ => none
  | some arg_c :: rest, args, s =>
    if ignore_arg arg_c then copy_args_loop rest args s
    else
      let (dup_ok, s1) := s.alloc
      if !dup_ok then some (false, args, s1)
      else
        let (grow_ok, s2) := if args.len = args.cap then s1.alloc else (true, s1)
        copy_args_loop rest (vector_append args (some arg_c) grow_ok).2 s2

/-- Model of `copy_args`. `nargs` is computed in `unsigned int`. -/
def copy_args (command : CXCompileCommand) (args : vector) (s : State) :
    Option (Bool × vector × State) :=
  let nargs := (command.args.length + UINT_MAX1 - 1) % UINT_MAX1
  let (init_ok, s1) := s.alloc
  let (ok, args1) := vector_init args nargs init_ok
  if !ok then some (false, args1, s1)
  else copy_args_loop ((List.range nargs).map (fun i => command.args.get? i)) args1 s1

/-- What the program is given by the file system and by libclang. -/
structure Env where
  /-- `realpath` before the `chdir` of `main` -/
  realpath : CStr → CharPtr
  /-- `realpath` after the `chdir` into the compilation database directory -/
  realpath_compdb : CStr → CharPtr
  /-- `chdir`: whether it succeeded -/
  chdir : CStr → Bool
  /-- `clang_parseTranslationUnit2FullArgv` on a file and its arguments: the
  cursor of the translation unit, or `none` when the result is not `CXError_Success` -/
  parse : CStr → List CharPtr → Option CXCursor

/-- The first loop of the scope check of `analyze`: `some true` is `goto out`. -/
def includes_loop (filename_c : CStr) : List (Option CharPtr) → Option Bool
  | [] => some false
  | none :: _ => none
  | some none :: rest => includes_loop filename_c rest
  | some (some incl) :: rest =>
    if strncmp filename_c incl (strlen incl) ≠ 0 then some true
    else includes_loop filename_c rest

/-- The second loop of the scope check of `analyze`: `some true` is `goto out`. -/
def excludes_loop (filename_c : CStr) : List (Option CharPtr) → Option Bool
  | [] => some false
  | none :: _ => none
  | some none :: rest => excludes_loop filename_c rest
  | some (some excl) :: rest =>
    if strncmp filename_c excl (strlen excl) = 0 then some true
    else excludes_loop filename_c rest

/-- The scope check of `analyze` (the block under `if (!force)`): `some true` when
the file is skipped. -/
def analyze_skip (filename_c : CStr) (force : Bool) (s : State) : Option Bool :=
  if force then some false
  else
    match includes_loop filename_c s.includes.slots with
    | none => none
    | some true => some true
    | some false => excludes_loop filename_c s.excludes.slots

/-- Append to standard error. -/
def State.eprint (s : State) (o : Output) : State :=
  { s with stderr := s.stderr ++ [o] }

/-- Model of `analyze`: the value returned and the state afterwards. -/
def analyze (env : Env) (command : CXCompileCommand)
    (visit : CXCursor → CXCursor → State → Option (CXChildVisitResult × State))
    (force : Bool) (client_data : Ptr) (s : State) : Option (Int × State) :=
  match env.realpath_compdb command.filename with
  | none => some (1, s.eprint (Output.failed_to_resolve (some command.filename)))
  | some filename_c =>
    match analyze_skip filename_c force s with
    | none => none
    | some true => some (0, s)
    | some false =>
      match copy_args command vector.zero s with
      | none => none
      | some (false, _, s1) => some (1, s1.eprint Output.out_of_memory)
      | some (true, command_args, s1) =>
        let (index_ok, s2) := s1.alloc
        if !index_ok then some (1, s2.eprint Output.out_of_memory)
        else
          match env.parse filename_c (command_args.data.take command_args.len) with
          | none => some (1, s2.eprint Output.failed_to_parse)
          | some tu =>
            let s3 : State := { s2 with ctx := { err := 0, client_data := client_data } }
            match clang_visitChildren visit tu s3 with
            | none => none
            | some (_, s4) => some (if s4.ctx.err ≠ 0 then 1 else 0, s4)

/-- The search loop of `read_guc_tables`: the value of `command` after the loop,
`last` being its value before. -/
def find_guc_tables : List CXCompileCommand → Option CXCompileCommand → Option CXCompileCommand
  | [], last => last
  | command :: rest, _ =>
    if (strstr command.filename "src/backend/utils/misc/guc_tables.c".toList).isSome then
      some command
    else find_guc_tables rest (some command)

/-- Model of `read_guc_tables` on the commands of the database. With no command at
all `command` is never assigned: `none`. -/
def read_guc_tables (env : Env) (commandv : List CXCompileCommand) (s : State) :
    Option (Bool × State) :=
  let (init_ok, s1) := s.alloc
  let s2 : State := { s1 with gucs := (vector_init s1.gucs 512 init_ok).2 }
  match find_guc_tables commandv none with
  | none => none
  | some command =>
    (analyze env command visit_guc_tables true Ptr.null s2).map
      (fun r => (decide (r.1 = 0), r.2))

/-! ## pgguclifetimes.c: main -/

/-- What `getopt_long` returns in the option loop of `main`, with `optarg`. -/
inductive Opt where
  /-- `-1` -/
  | one
  /-- `-e`, `--exclude` -/
  | e (optarg : CharPtr)
  /-- `-h`, `--help` -/
  | h
  /-- `-i`, `--include` -/
  | i (optarg : CharPtr)
  /-- `-q`, `--quiet` -/
  | q
  /-- the result `:` -/
  | missing
  /-- the result `?` -/
  | unknown
  deriving DecidableEq, Repr

/-- The compilation database `clang_CompilationDatabase_fromDirectory` loads. -/
structure CXCompilationDatabase where
  /-- result of `clang_CompilationDatabase_getAllCompileCommands` -/
  commands : List CXCompileCommand
  /-- result of `clang_CompilationDatabase_getCompileCommands` for a file; the empty
  list is NULL -/
  lookup : CStr → List CXCompileCommand

/-- The body of `case 'e'` and of `case 'i'` for the path vector `vec`: `some rc` in
the first component is `goto out` with that `rc`. -/
def main_path_option (env : Env) (vec : vector) (optarg : CharPtr) (s : State) :
    Option Int × vector × State :=
  let (init_ok, vec1, s1) : Bool × vector × State :=
    if vec.cap = 0 then
      let (ok, s1) := s.alloc
      ((vector_init vec 4 ok).1, (vector_init vec 4 ok).2, s1)
    else (true, vec, s)
  if !init_ok then (some 1, vec1, s1.eprint Output.out_of_memory)
  else
    match optarg.bind env.realpath with
    | none => (some 1, vec1, s1.eprint (Output.failed_to_resolve optarg))
    | some path =>
      let (grow_ok, s2) := if vec1.len = vec1.cap then s1.alloc else (true, s1)
      let (ok, vec2) := vector_append vec1 (some path) grow_ok
      if !ok then (some 1, vec2, s2.eprint Output.out_of_memory)
      else (none, vec2, s2)

/-- The option loop of `main`: `some rc` is `goto out` with that `rc`. -/
def getopt_loop (env : Env) : List Opt → State → Option Int × State
  | [], s => (none, s)
  | Opt.one :: rest, s => getopt_loop env rest { s with fail_fast := true }
  | Opt.e optarg :: rest, s =>
    match main_path_option env s.excludes optarg s with
    | (some rc, vec, s1) => (some rc, { s1 with excludes := vec })
    | (none, vec, s1) => getopt_loop env rest { s1 with excludes := vec }
  | Opt.h :: _, s => (some 0, { s with stdout := s.stdout ++ [Output.usage] })
  | Opt.i optarg :: rest, s =>
    match main_path_option env s.includes optarg s with
    | (some rc, vec, s1) => (some rc, { s1 with includes := vec })
    | (none, vec, s1) => getopt_loop env rest { s1 with includes := vec }
  | Opt.q :: rest, s => getopt_loop env rest { s with quiet := true, fail_fast := true }
  | Opt.missing :: _, s => (some 1, (s.eprint Output.missing_argument).eprint Output.usage)
  | Opt.unknown :: _, s => (some 1, (s.eprint Output.unrecognized_option).eprint Output.usage)

/-- The inner loop of the normalization of `main` for one include path, over the
indices `j` that are left. `strlen` of a NULL entry, or a read past the allocated
slots, is `none`. -/
def normalize_excludes (incl : CStr) : List Nat → vector → Option vector
  | [], excludes => some excludes
  | j :: js, excludes =>
    match excludes.data.get? j with
    | some (some excl) =>
      if strlen excl ≤ strlen incl ∧ strncmp excl incl (strlen excl) = 0 then
        normalize_excludes incl js { excludes with data := excludes.data.set j none }
      else normalize_excludes incl js excludes
    | _ => none

/-- The outer loop of the normalization of `main`, over the values read as
`includes.data[i]`; the result is `excludes` afterwards. -/
def normalize_includes : List (Option CharPtr) → vector → Option vector
  | [], excludes => some excludes
  | some (some incl) :: rest, excludes =>
    match normalize_excludes incl (List.range excludes.len) excludes with
    | none => none
    | some excludes1 => normalize_includes rest excludes1
  | _ :: _, _ => none

/-- The loop of `main` that resolves the FILE arguments into `files`. -/
def resolve_files (env : Env) : List CStr → vector → State → Option Int × vector × State
  | [], files, s => (none, files, s)
  | arg :: rest, files, s =>
    match env.realpath arg with
    | none => (some 1, files, s.eprint (Output.failed_to_resolve (some arg)))
    | some file =>
      let (grow_ok, s1) := if files.len = files.cap then s.alloc else (true, s)
      resolve_files env rest (vector_append files (some file) grow_ok).2 s1

/-- The loop of `main` over `files`, given the values read as `files.data[i]` and
the current `rc`. -/
def analyze_files (env : Env) (compdb : CXCompilationDatabase) :
    List (Option CharPtr) → Int → State → Option (Int × State)
  | [], rc, s => some (rc, s)
  | some (some file) :: rest, _, s =>
    match compdb.lookup file with
    | [] => some (1, s.eprint (Output.failed_to_find (some file)))
    | command :: _ =>
      match analyze env command visit_translation_unit false Ptr.issues s with
      | none => none
      | some (rc, s1) =>
        if s1.fail_fast && rc ≠ 0 then some (rc, s1)
        else analyze_files env compdb rest rc s1
  | _ :: _, _, _ => none

/-- The loop of `main` over every command of the database, given the current `rc`. -/
def analyze_all (env : Env) : List CXCompileCommand → Int → State → Option (Int × State)
  | [], rc, s => some (rc, s)
  | command :: rest, _, s =>
    match analyze env command visit_translation_unit false Ptr.issues s with
    | none => none
    | some (rc, s1) =>
      if s1.fail_fast && rc ≠ 0 then some (rc, s1)
      else analyze_all env rest rc s1

/-- The end of `main` after the label `out`: the exit status. -/
def main_out (rc : Int) (s : State) : Int :=
  if rc ≠ 0 then rc else if s.issues ≠ 0 then 1 else 0

/-- The part of `main` from `read_guc_tables` on. -/
def main_run (env : Env) (compdb : CXCompilationDatabase) (files : vector) (s : State) :
    Option (Int × State) :=
  match read_guc_tables env compdb.commands s with
  | none => none
  | some (false, s1) => some (1, s1)
  | some (true, s1) =>
    let looped : Option (Int × State) :=
      if files.len > 0 then analyze_files env compdb files.slots 0 s1
      else analyze_all env compdb.commands 0 s1
    looped.map (fun r => (main_out r.1 r.2, r.2))

/-- Model of `main`: `opts` are the results of `getopt_long`, `args` the arguments
from `argv[optind]` on, `fromDirectory` the result of
`clang_CompilationDatabase_fromDirectory`, `heap` the allocator. The result is the
exit status and the final state; `none` when the process does not return. -/
def main (env : Env) (fromDirectory : CStr → Option CXCompilationDatabase)
    (opts : List Opt) (args : List CStr) (heap : List Bool) : Option (Int × State) :=
  match getopt_loop env opts (State.init heap) with
  | (some rc, s) => some (main_out rc s, s)
  | (none, s) =>
    match args with
    | [] => some (1, (s.eprint Output.no_compdb).eprint Output.usage)
    | compdb_dir :: file_args =>
      match normalize_includes s.includes.slots s.excludes with
      | none => none
      | some excludes1 =>
        let s1 : State := { s with excludes := excludes1 }
        let files0 : vector := { vector.zero with cap := file_args.length }
        let (failed, files, s2) : Option Int × vector × State :=
          if files0.cap > 0 then
            let (init_ok, s2) := s1.alloc
            if !(vector_init files0 files0.cap init_ok).1 then
              (some 1, (vector_init files0 files0.cap init_ok).2, s2.eprint Output.out_of_memory)
            else resolve_files env file_args (vector_init files0 files0.cap init_ok).2 s2
          else (none, files0, s1)
        match failed with
        | some rc => some (main_out rc s2, s2)
        | none =>
          match fromDirectory compdb_dir with
          | none => some (1, s2)
          | some compdb =>
            if !env.chdir compdb_dir then some (1, s2.eprint Output.failed_to_chdir)
            else main_run env compdb files s2

/-! ## Spec side -/

/-- Spec side: the attribute is an annotate attribute whose text is one of the ten
lifetime tags. -/
def is_lifetime_tag (a : CXCursor) : Bool :=
  decide (a.kind = CXCursorKind.AnnotateAttr) && decide (a.spelling ∈ guc_lifetimes)

/-- Spec side: the declaration carries a recognized lifetime annotation. -/
def recognized (cursor : CXCursor) : Bool :=
  cursor.children.any is_lifetime_tag

/-- Spec side: a top-level declaration that must be reported, given the names of
the exception set. -/
def reportable (names : List CStr) (c : CXCursor) : Bool :=
  decide (c.kind = CXCursorKind.VarDecl) && c.global_storage && c.from_main_file &&
    !(List.isPrefixOf ['y', 'y'] c.spelling) && !decide (c.spelling ∈ names) && !recognized c

/-- Spec side: the report record of a declaration: its file, line, column and name
with the fixed message. -/
def report_of (c : CXCursor) : Output :=
  Output.report c.filename c.line c.column c.spelling "is missing a lifetime annotation"

/-- Spec side: the arguments `copy_args` is to keep: all but the last, without
those that begin with "-W", in their order. -/
def kept_args (command : CXCompileCommand) : List CStr :=
  command.args.dropLast.filter (fun a => !(List.isPrefixOf "-W".toList a))

/-! ## Concrete inputs -/

/-- The vector `main` holds after one `-i` or `-e` option whose path resolved to `p`:
`vector_init` with capacity 4, then `vector_append`. -/
def path_vector (p : CStr) : vector :=
  (vector_append (vector_init vector.zero 4 true).2 (some p) true).2

/-- An annotate attribute with the given text. -/
def annotate_attr (text : String) : CXCursor :=
  { kind := CXCursorKind.AnnotateAttr, spelling := text.toList, filename := [], line := 0,
    column := 0, from_main_file := true, global_storage := false, thread_storage := false,
    element_fields := [], children := [] }

/-- A file-scope variable declaration of a file, at a line and column, with its
thread storage and its attributes. -/
def var_decl (file name : String) (line column : Nat) (tls : Bool) (attrs : List CXCursor) :
    CXCursor :=
  { kind := CXCursorKind.VarDecl, spelling := name.toList, filename := file.toList, line := line,
    column := column, from_main_file := true, global_storage := true, thread_storage := tls,
    element_fields := [], children := attrs }

/-- The cursor of a translation unit with the given top-level declarations. -/
def translation_unit (file : String) (decls : List CXCursor) : CXCursor :=
  { kind := CXCursorKind.Other, spelling := file.toList, filename := [], line := 0, column := 0,
    from_main_file := true, global_storage := false, thread_storage := false,
    element_fields := [], children := decls }

/-- The translation unit of tests/failure/example.c. -/
def example_c : CXCursor :=
  translation_unit "example.c"
    [ var_decl "example.c" "needs_all" 5 5 false [],
      var_decl "example.c" "static_needs_all" 6 12 false [],
      var_decl "example.c" "extern_needs_all" 7 12 false [],
      var_decl "example.c" "needs_annotation" 9 14 true [],
      var_decl "example.c" "static_needs_annotation" 10 21 true [],
      var_decl "example.c" "extern_needs_annotation" 11 21 true [],
      var_decl "example.c" "needs_thread" 13 53 false [annotate_attr "postmaster_guc"],
      var_decl "example.c" "static_needs_thread" 14 57 false [annotate_attr "session_guc"],
      var_decl "example.c" "extern_needs_thread" 15 56 false [annotate_attr "sighup_guc"] ]

/-- The state in which `analyze` starts the walk of a translation unit for `main`:
`ctx.client_data` is `&issues`, no name in `gucs`. -/
def walk_state (fail_fast quiet : Bool) : State :=
  { State.init [] with fail_fast := fail_fast, quiet := quiet, ctx := ⟨0, Ptr.issues⟩,
                       gucs := (vector_init vector.zero 512 true).2 }

/-- A cursor of the given kind, spelling and children, in the main file. -/
def expr (kind : CXCursorKind) (spelling : String) (children : List CXCursor) : CXCursor :=
  { kind := kind, spelling := spelling.toList, filename := [], line := 0, column := 0,
    from_main_file := true, global_storage := false, thread_storage := false,
    element_fields := [], children := children }

/-- A translation unit for guc_tables.c: the table `ConfigureNamesInt`, annotated
`static_singleton`, whose records have `variable_addr` as second field, with one
entry for `&work_mem_address` and the terminating entry. -/
def guc_tables_c : CXCursor :=
  translation_unit "guc_tables.c"
    [ { var_decl "guc_tables.c" "ConfigureNamesInt" 100 19 false
          [ annotate_attr "static_singleton",
            expr CXCursorKind.InitListExpr ""
              [ expr CXCursorKind.InitListExpr ""
                  [ expr CXCursorKind.InitListExpr "" [],
                    expr CXCursorKind.UnaryOperator ""
                      [expr CXCursorKind.DeclRefExpr "work_mem_address" []],
                    expr CXCursorKind.Other "" [] ],
                expr CXCursorKind.InitListExpr ""
                  [ expr CXCursorKind.InitListExpr "" [],
                    expr CXCursorKind.Other "" [] ] ] ] with
        element_fields := ["gen".toList, "variable_addr".toList, "boot_val".toList] } ]

/-- The compile command `cc -Wall -c file` of a file. -/
def cc (file : String) : CXCompileCommand :=
  { filename := file.toList, args := ["cc".toList, "-Wall".toList, "-c".toList, file.toList],
    args_lt := (by decide : 4 < UINT_MAX1) }

/-- A compilation database with the given commands. -/
def database (commands : List CXCompileCommand) : CXCompilationDatabase :=
  { commands := commands, lookup := fun file => commands.filter (fun c => c.filename = file) }

/-- An environment in which every path resolves to itself, `chdir` succeeds and
the files parse to the given translation units; a file that is not listed does
not parse. -/
def env_of (units : List (String × CXCursor)) : Env :=
  { realpath := fun p => some p, realpath_compdb := fun p => some p, chdir := fun _ => true,
    parse := fun file _ => (units.find? (fun u => u.1.toList = file)).map (fun u => u.2) }

/-- The path of the configuration table source. -/
def guc_tables_path : String := "/pg/src/backend/utils/misc/guc_tables.c"

/-- The translation unit of a file with one file-scope variable that carries no
annotation. -/
def unannotated_unit (file name : String) : CXCursor :=
  translation_unit file [var_decl file name 1 5 false []]

/-- The translation unit of a file with one variable annotated `session_guc`. -/
def annotated_unit (file name : String) : CXCursor :=
  translation_unit file [var_decl file name 1 17 true [annotate_attr "session_guc"]]

/-- A source tree: guc_tables.c, two files under /pg/contrib with one unannotated
variable each (`x` and `y`), and /pg/src/good.c with one annotated variable. Any
other file, such as /pg/src/bad.c, does not parse. -/
def pg_env : Env :=
  env_of
    [ (guc_tables_path, guc_tables_c),
      ("/pg/contrib/a.c", unannotated_unit "/pg/contrib/a.c" "x"),
      ("/pg/contrib/b.c", unannotated_unit "/pg/contrib/b.c" "y"),
      ("/pg/src/good.c", annotated_unit "/pg/src/good.c" "z") ]

/-- The state after the option loop of `main` for the given options, in `pg_env`
with an allocator that never fails. -/
def after_options (opts : List Opt) : State :=
  (getopt_loop pg_env opts (State.init [])).2

/-- A state whose `includes` and `excludes` are those `main` holds after one `-i` and
one `-e` option. -/
def scope_state (incl excl : String) : State :=
  { State.init [] with includes := path_vector incl.toList, excludes := path_vector excl.toList }

/-! ## Spec side: the exception names -/

/-- Spec side: the vector holds exactly `names`: they fill its first `len` slots,
and `0 < cap`, `len <= cap`, with `cap` slots allocated. -/
def vector.holds (vec : vector) (names : List CStr) : Prop :=
  vec.len = names.length ∧ vec.data.take vec.len = names.map some ∧
    vec.data.length = vec.cap ∧ vec.len ≤ vec.cap ∧ 0 < vec.cap

/-- Spec side: no allocation request that is still to come fails. -/
def no_fail (s : State) : Prop :=
  ∀ b ∈ s.heap, b = true

/-- A vector of capacity 4 that is full, as `excludes` is after four `-e` options. -/
def full_vector : vector :=
  { data := [some "/a".toList, some "/b".toList, some "/c".toList, some "/d".toList],
    cap := 4, len := 4 }

/-- A state inside the walk of guc_tables.c: `gucs` as `read_guc_tables` initialises
it, no allocation failure to come. -/
def extraction_state : State :=
  { State.init [] with gucs := (vector_init vector.zero 512 true).2, ctx := ⟨0, Ptr.iter⟩ }

/-- The cursor of a variable declaration without global storage. -/
def local_var : CXCursor :=
  { var_decl "guc_tables.c" "local" 10 9 false [] with global_storage := false }

/-- Spec side: the part of the state that the walk of guc_tables.c leaves alone. -/
def State.fixed (s : State) :
    Bool × Bool × vector × vector × Int × Nat × Bool × List Output × List Output :=
  (s.fail_fast, s.quiet, s.excludes, s.includes, s.ctx.err, s.issues, s.annotated, s.stderr,
    s.stdout)

/-- Spec side: `gucs` holds exactly `names` and no allocation to come fails. -/
def extracting (s : State) (names : List CStr) : Prop :=
  s.gucs.holds names ∧ no_fail s

/-- Spec side: the name that examining the address field `c` of an entry adds, if
any: for a unary operator, the spelling of its first child up to the first
"_address". -/
def field_name (c : CXCursor) : Option CStr :=
  if c.kind = CXCursorKind.UnaryOperator then
    match c.children with
    | [] => none
    | d :: _ => (strstr d.spelling "_address".toList).map (fun off => d.spelling.take off)
  else none

/-- Spec side: the address field `c` is one that `visit_initializer` gets through: if
it is a unary operator with an operand, the operand is a reference to a
declaration whose name contains "_address". -/
def field_ok (c : CXCursor) : Bool :=
  if c.kind = CXCursorKind.UnaryOperator then
    match c.children with
    | [] => true
    | d :: _ =>
      decide (d.kind = CXCursorKind.DeclRefExpr) &&
        (strstr d.spelling "_address".toList).isSome
  else true

/-- Spec side: the child of an entry record at position `k`, if the entry is an
initializer list with that many children. -/
def entry_field (k : Nat) (entry : CXCursor) : Option CXCursor :=
  if entry.kind = CXCursorKind.InitListExpr then entry.children.get? k else none

/-- Spec side: the name an entry record adds when its child at position `k` is
examined. -/
def entry_name (k : Nat) (entry : CXCursor) : Option CStr :=
  (entry_field k entry).bind field_name

/-- Spec side: the entry record is one the walk gets through. -/
def entry_ok (k : Nat) (entry : CXCursor) : Bool :=
  match entry_field k entry with
  | some c => field_ok c
  | none => true

/-- Spec side: the entry records of a table: the children of those children of the
table declaration that are initializer lists. -/
def list_entries : List CXCursor → List CXCursor
  | [] => []
  | c :: rest =>
    (if c.kind = CXCursorKind.InitListExpr then c.children else []) ++ list_entries rest

/-- Spec side: the zero-based position of the first field named `variable_addr`; the
number of fields when there is none. -/
def field_position : List CStr → Nat
  | [] => 0
  | f :: rest => if f = "variable_addr".toList then 0 else field_position rest + 1

/-- Spec side: the declaration is one of the five configuration tables. -/
def is_guc_table (T : CXCursor) : Bool :=
  decide (T.kind = CXCursorKind.VarDecl) && T.global_storage && decide (T.spelling ∈ guc_tables)

/-- Spec side: the value of `field_index` for a table, an `unsigned int`. -/
def table_index (T : CXCursor) : Nat :=
  field_position T.element_fields % UINT_MAX1

/-- Spec side: the names a top-level declaration adds to the exception set. -/
def table_names (T : CXCursor) : List CStr :=
  if is_guc_table T then (list_entries T.children).filterMap (entry_name (table_index T))
  else []

/-- Spec side: every entry record of the declaration, if it is a configuration
table, is one the walk gets through. -/
def table_ok (T : CXCursor) : Bool :=
  !is_guc_table T || (list_entries T.children).all (entry_ok (table_index T))

/-- Spec side: the names the top-level declarations add to the exception set, in
order. -/
def extracted_names : List CXCursor → List CStr
  | [] => []
  | T :: rest => table_names T ++ extracted_names rest

/-- Spec side: a compile command whose analysis finds nothing to report, for the
exception names `names` and the scope options of `s`: its file resolves, and the
file is either out of scope or parses to a translation unit in which no top-level
declaration has to be reported. -/
def clean_command (env : Env) (names : List CStr) (s : State) (command : CXCompileCommand) :
    Prop :=
  ∃ f, env.realpath_compdb command.filename = some f ∧
    (analyze_skip f false s = some true ∨
      (analyze_skip f false s = some false ∧ 1 ≤ command.args.length ∧
        ∃ tu, env.parse f ((kept_args command).map some) = some tu ∧
          tu.children.filter (reportable names) = []))

/-- Spec side: the first command the database has for each FILE argument, `none`
when an argument is missing or has no command. -/
def lookup_all (compdb : CXCompilationDatabase) :
    List (Option CharPtr) → Option (List CXCompileCommand)
  | [] => some []
  | some (some file) :: rest =>
    match compdb.lookup file with
    | [] => none
    | command :: _ => (lookup_all compdb rest).map (fun l => command :: l)
  | _ :: _ => none

/-- Spec side: the commands a run analyses: those of the FILE arguments when there
are any, every command of the database otherwise. -/
def run_commands (compdb : CXCompilationDatabase) (files : vector) :
    Option (List CXCompileCommand) :=
  if files.len > 0 then lookup_all compdb files.slots else some compdb.commands

/-! ## Concrete inputs for the extraction -/

/-- The entry of `guc_tables_c` for `&work_mem_address`. -/
def work_mem_entry : CXCursor :=
  expr CXCursorKind.InitListExpr ""
    [ expr CXCursorKind.InitListExpr "" [],
      expr CXCursorKind.UnaryOperator "" [expr CXCursorKind.DeclRefExpr "work_mem_address" []],
      expr CXCursorKind.Other "" [] ]

/-- The terminating entry of `guc_tables_c`: its second field is no address-of
expression. -/
def last_entry : CXCursor :=
  expr CXCursorKind.InitListExpr ""
    [ expr CXCursorKind.InitListExpr "" [], expr CXCursorKind.Other "" [] ]

/-- The initializer list of the table of `guc_tables_c`. -/
def names_int_list : CXCursor :=
  expr CXCursorKind.InitListExpr "" [work_mem_entry, last_entry]

/-- The table `ConfigureNamesInt` of `guc_tables_c`. -/
def names_int_table : CXCursor :=
  { var_decl "guc_tables.c" "ConfigureNamesInt" 100 19 false
      [annotate_attr "static_singleton", names_int_list] with
    element_fields := ["gen".toList, "variable_addr".toList, "boot_val".toList] }

/-- The translation unit of /pg/src/w.c: the variables `work_mem` and
`work_mem_address`, neither with an annotation. -/
def address_unit : CXCursor :=
  translation_unit "/pg/src/w.c"
    [ var_decl "/pg/src/w.c" "work_mem" 1 5 false [],
      var_decl "/pg/src/w.c" "work_mem_address" 2 5 false [] ]

/-- A source tree: guc_tables.c and /pg/src/w.c. -/
def address_env : Env :=
  env_of [(guc_tables_path, guc_tables_c), ("/pg/src/w.c", address_unit)]

/-- A source tree in which every file parses and has nothing to report:
guc_tables.c, /pg/src/good.c with one annotated variable, and /pg/src/m.c with the
variable `work_mem`, which guc_tables.c names. -/
def clean_env : Env :=
  env_of
    [ (guc_tables_path, guc_tables_c),
      ("/pg/src/good.c", annotated_unit "/pg/src/good.c" "z"),
      ("/pg/src/m.c", unannotated_unit "/pg/src/m.c" "work_mem") ]

/-! ## Lemmas -/

theorem strcmp_eq_zero_iff (a b : CStr) : strcmp a b = 0 ↔ a = b := by
  induction a generalizing b with
  | nil => cases b <;> simp [strcmp]
  | cons x xs ih =>
    cases b with
    | nil => simp [strcmp]
    | cons y ys =>
      simp only [strcmp]
      split_ifs with h1 h2
      · simp [ih, h1]
      · simp [h1]
      · simp [h1]

theorem strncmp_eq_zero_iff (a b : CStr) (n : Nat) : strncmp a b n = 0 ↔ a.take n = b.take n := by
  induction n generalizing a b with
  | zero => simp [strncmp]
  | succ n ih =>
    cases a with
    | nil => cases b <;> simp [strncmp]
    | cons x xs =>
      cases b with
      | nil => simp [strncmp]
      | cons y ys =>
        simp only [strncmp]
        split_ifs with h1 h2
        · simp [ih, h1]
        · simp [h1]
        · simp [h1]

theorem strncmp_strlen_iff (f p : CStr) : strncmp f p (strlen p) = 0 ↔ p <+: f := by
  rw [strncmp_eq_zero_iff, strlen, List.take_length, List.prefix_iff_eq_take]
  exact eq_comm

theorem strncmp_own_strlen_iff (e i : CStr) : strncmp e i (strlen e) = 0 ↔ e <+: i := by
  rw [strncmp_eq_zero_iff, strlen, List.take_length, List.prefix_iff_eq_take]

theorem strstr_eq_zero_iff (arg needle : CStr) : strstr arg needle = some 0 ↔ needle <+: arg := by
  cases arg with
  | nil => cases needle <;> simp [strstr]
  | cons c cs =>
    simp only [strstr]
    split_ifs with h
    · simpa using List.isPrefixOf_iff_prefix.mp h
    · have : ¬ needle <+: c :: cs := fun hp => h (List.isPrefixOf_iff_prefix.mpr hp)
      simp [this]

theorem range_map_get? {α : Type} (l : List α) (n : Nat) (h : n ≤ l.length) :
    (List.range n).map (fun i => l.get? i) = (l.take n).map some := by
  induction n with
  | zero => simp
  | succ n ih =>
    have hn : n < l.length := h
    rw [List.range_succ, List.map_append, ih (Nat.le_of_lt hn), List.take_succ,
      List.map_append, List.getElem?_eq_getElem hn]
    simp [List.getElem?_eq_getElem hn]

theorem slots_eq (vec : vector) (h : vec.len ≤ vec.data.length) :
    vec.slots = (vec.data.take vec.len).map some :=
  range_map_get? vec.data vec.len h

theorem clang_visitChildren_eq {σ : Type}
    (visitor : CXCursor → CXCursor → σ → Option (CXChildVisitResult × σ)) (c : CXCursor) (s : σ) :
    clang_visitChildren visitor c s = visitChildrenList visitor c c.children s := by
  cases c; rfl

theorem guc_lifetimes_any (sp : CStr) :
    guc_lifetimes.any (fun t => decide (strcmp sp t = 0)) = decide (sp ∈ guc_lifetimes) := by
  rw [Bool.eq_iff_iff]
  simp only [List.any_eq_true, decide_eq_true_eq, strcmp_eq_zero_iff]
  constructor
  · rintro ⟨t, ht, rfl⟩; exact ht
  · intro h; exact ⟨sp, h, rfl⟩

theorem visit_annotation_eq (a p : CXCursor) (s : State)
    (hp : s.ctx.client_data = Ptr.annotated) (ha : s.annotated = false) :
    visit_annotation a p s =
      some (if is_lifetime_tag a then CXChildVisitResult.Break else CXChildVisitResult.Continue,
            if is_lifetime_tag a then { s with annotated := true } else s) := by
  unfold visit_annotation is_lifetime_tag
  by_cases hk : a.kind = CXCursorKind.AnnotateAttr
  · simp only [hk, visit_guc_lifetime, hp, guc_lifetimes_any]
    by_cases hm : a.spelling ∈ guc_lifetimes
    · simp [hm]
    · simp [hm, ha]
  · have : (match a.kind with
        | CXCursorKind.AnnotateAttr => visit_guc_lifetime a p s
        | _ => some (CXChildVisitResult.Continue, s)) = some (CXChildVisitResult.Continue, s) := by
      split
      · rename_i h; exact absurd h hk
      · rfl
    simp [this, hk]

theorem annotation_walk (p : CXCursor) (cs : List CXCursor) (s : State)
    (hp : s.ctx.client_data = Ptr.annotated) (ha : s.annotated = false) :
    visitChildrenList visit_annotation p cs s =
      some (cs.any is_lifetime_tag,
            if cs.any is_lifetime_tag then { s with annotated := true } else s) := by
  induction cs with
  | nil => simp [visitChildrenList]
  | cons a rest ih =>
    rw [visitChildrenList, visit_annotation_eq a p s hp ha]
    by_cases ht : is_lifetime_tag a = true
    · simp [ht]
    · simp only [ht, if_false, Bool.false_eq_true]
      simp [ih, ht]

theorem gucs_lookup_names (sp : CStr) (names : List CStr) :
    gucs_lookup sp (names.map (fun n => some (some n))) = some (decide (sp ∈ names)) := by
  induction names with
  | nil => simp [gucs_lookup]
  | cons n rest ih =>
    simp only [List.map_cons, gucs_lookup, strcmp_eq_zero_iff, ih]
    by_cases h : sp = n
    · simp [h]
    · simp [h]

theorem yy_check (sp : CStr) :
    (decide (sp.get? 0 = some 'y') && decide (sp.get? 1 = some 'y')) =
      List.isPrefixOf ['y', 'y'] sp := by
  have e : ∀ x : Char, ('y' == x) = decide (x = 'y') := fun x => by
    by_cases h : x = 'y'
    · subst h; simp
    · have h' : ¬ 'y' = x := fun h' => h h'.symm
      simp [h, h']
  match sp with
  | [] => simp
  | [a] => simp [List.isPrefixOf]
  | a :: b :: rest =>
    simp only [List.get?, List.isPrefixOf, Option.some.injEq, Bool.and_true, e]

theorem visit_translation_unit_step (c p : CXCursor) (s : State) (names : List CStr)
    (hg : s.gucs.slots = names.map (fun n => some (some n)))
    (hcd : s.ctx.client_data = Ptr.issues) :
    ∃ s', visit_translation_unit c p s =
        some (if s.fail_fast && reportable names c then CXChildVisitResult.Break
              else CXChildVisitResult.Continue, s') ∧
      s'.quiet = s.quiet ∧ s'.fail_fast = s.fail_fast ∧ s'.gucs = s.gucs ∧ s'.ctx = s.ctx ∧
      s'.issues = (if reportable names c then (s.issues + 1) % UINT_MAX1 else s.issues) ∧
      s'.stderr = (if reportable names c && !s.quiet then s.stderr ++ [report_of c]
                   else s.stderr) := by
  unfold visit_translation_unit
  by_cases hk : c.kind = CXCursorKind.VarDecl
  swap
  · have hr : reportable names c = false := by simp [reportable, hk]
    refine ⟨s, ?_, rfl, rfl, rfl, rfl, by simp [hr], by simp [hr]⟩
    split
    · rename_i h; exact absurd h hk
    · simp [hr]
  simp only [hk]
  unfold visit_global_variable
  rw [yy_check]
  by_cases h1 : c.from_main_file = true
  swap
  · have hr : reportable names c = false := by simp [reportable, h1]
    exact ⟨{ s with annotated := false }, by simp [h1, hr], rfl, rfl, rfl, rfl, by simp [hr],
      by simp [hr]⟩
  by_cases h2 : c.global_storage = true
  swap
  · have hr : reportable names c = false := by simp [reportable, h2]
    exact ⟨{ s with annotated := false }, by simp [h1, h2, hr], rfl, rfl, rfl, rfl,
      by simp [hr], by simp [hr]⟩
  by_cases h3 : List.isPrefixOf ['y', 'y'] c.spelling = true
  · have hr : reportable names c = false := by simp [reportable, h3]
    exact ⟨{ s with annotated := false }, by simp [h1, h2, h3, hr], rfl, rfl, rfl, rfl,
      by simp [hr], by simp [hr]⟩
  have hg' : ({ s with annotated := false } : State).gucs.slots =
      names.map (fun n => some (some n)) := hg
  by_cases h4 : c.spelling ∈ names
  · have hr : reportable names c = false := by simp [reportable, h4]
    exact ⟨{ s with annotated := false },
      by simp [h1, h2, h3, hr, hg, gucs_lookup_names, h4], rfl, rfl, rfl, rfl,
      by simp [hr], by simp [hr]⟩
  simp only [h1, h2, h3, hg, gucs_lookup_names, h4, clang_visitChildren_eq]
  rw [annotation_walk c c.children _ rfl rfl]
  have hrec : c.children.any is_lifetime_tag = recognized c := rfl
  rw [hrec]
  by_cases h5 : recognized c = true
  · have hr : reportable names c = false := by simp [reportable, h5]
    simp [h5, hr]
  · have hr : reportable names c = true := by simp [reportable, hk, h1, h2, h3, h4, h5]
    simp only [Bool.not_eq_true] at h5
    have hctx : ({ err := s.ctx.err, client_data := Ptr.issues } : parse_context) = s.ctx := by
      rw [← hcd]
    simp [h5, hr, hcd, State.incr_uint, error, report_of, hctx]
    by_cases hq : s.quiet = true
    · simp [hq, hctx]
    · simp [hq, hctx]

theorem any_lifetime_tag_iff (cs : List CXCursor) :
    cs.any is_lifetime_tag = true ↔
      ∃ a ∈ cs, a.kind = CXCursorKind.AnnotateAttr ∧ a.spelling ∈ guc_lifetimes := by
  simp [List.any_eq_true, is_lifetime_tag]

theorem any_lifetime_tag_filter (cs : List CXCursor) :
    cs.any is_lifetime_tag =
      ((cs.filter (fun a => decide (a.kind = CXCursorKind.AnnotateAttr))).map
        (fun a => a.spelling)).any (fun t => decide (t ∈ guc_lifetimes)) := by
  induction cs with
  | nil => rfl
  | cons a rest ih =>
    by_cases hk : a.kind = CXCursorKind.AnnotateAttr
    · simp [List.filter_cons, hk, is_lifetime_tag, ← ih]
    · simp [List.filter_cons, hk, is_lifetime_tag, ← ih]

theorem annotation_check_result (cursor : CXCursor) (s : State) :
    clang_visitChildren visit_annotation cursor
        { s with annotated := false, ctx := { s.ctx with client_data := Ptr.annotated } } =
      some (recognized cursor,
        { s with annotated := recognized cursor,
                 ctx := { s.ctx with client_data := Ptr.annotated } }) := by
  rw [clang_visitChildren_eq, annotation_walk cursor cursor.children _ rfl rfl]
  have hrec : cursor.children.any is_lifetime_tag = recognized cursor := rfl
  rw [hrec]
  by_cases h : recognized cursor = true
  · simp [h]
  · simp only [Bool.not_eq_true] at h
    simp [h]


theorem translation_unit_walk (p : CXCursor) (names : List CStr) (cs : List CXCursor) (s : State)
    (hff : s.fail_fast = false) (hq : s.quiet = false)
    (hg : s.gucs.slots = names.map (fun n => some (some n)))
    (hcd : s.ctx.client_data = Ptr.issues) :
    ∃ s', visitChildrenList visit_translation_unit p cs s = some (false, s') ∧
      s'.issues % UINT_MAX1 = (s.issues + (cs.filter (reportable names)).length) % UINT_MAX1 ∧
      (s.issues + (cs.filter (reportable names)).length < UINT_MAX1 →
        s'.issues = s.issues + (cs.filter (reportable names)).length) ∧
      s'.stderr = s.stderr ++ (cs.filter (reportable names)).map report_of := by
  induction cs generalizing s with
  | nil => exact ⟨s, by simp [visitChildrenList], by simp, by simp, by simp⟩
  | cons c rest ih =>
    obtain ⟨s1, hv, h1q, h1f, h1g, h1c, h1i, h1e⟩ := visit_translation_unit_step c p s names hg hcd
    have hg1 : s1.gucs.slots = names.map (fun n => some (some n)) := by rw [h1g]; exact hg
    obtain ⟨s2, hw, h2m, h2x, h2e⟩ :=
      ih s1 (h1f.trans hff) (h1q.trans hq) hg1 (by rw [h1c]; exact hcd)
    refine ⟨s2, ?_, ?_, ?_, ?_⟩
    · rw [visitChildrenList, hv]
      simp [hff, hw]
    · by_cases hr : reportable names c = true
      · simp only [hr, if_true] at h1i
        rw [h2m, h1i, List.filter_cons_of_pos hr, List.length_cons]
        rw [Nat.add_mod, Nat.mod_mod, ← Nat.add_mod]
        congr 1
        omega
      · simp only [hr, if_false, Bool.false_eq_true] at h1i
        rw [h2m, h1i, List.filter_cons_of_neg hr]
    · by_cases hr : reportable names c = true
      · simp only [hr, if_true] at h1i
        rw [List.filter_cons_of_pos hr, List.length_cons]
        intro hlt
        have hs : (s.issues + 1) % UINT_MAX1 = s.issues + 1 := Nat.mod_eq_of_lt (by omega)
        rw [h2x (by rw [h1i, hs]; omega), h1i, hs]
        omega
      · simp only [hr, if_false, Bool.false_eq_true] at h1i
        rw [List.filter_cons_of_neg hr]
        intro hlt
        rw [h2x (by rw [h1i]; exact hlt), h1i]
    · by_cases hr : reportable names c = true
      · simp only [hr, hq, Bool.not_false, Bool.and_true, if_true] at h1e
        rw [h2e, h1e, List.filter_cons_of_pos hr]
        simp
      · simp only [hr, Bool.false_and, if_false, Bool.false_eq_true] at h1e
        rw [h2e, h1e, List.filter_cons_of_neg hr]

theorem translation_unit_walk_fail_fast (p : CXCursor) (names : List CStr) (cs : List CXCursor)
    (s : State) (first : CXCursor) (rest : List CXCursor)
    (hff : s.fail_fast = true)
    (hg : s.gucs.slots = names.map (fun n => some (some n)))
    (hcd : s.ctx.client_data = Ptr.issues)
    (hne : cs.filter (reportable names) = first :: rest) :
    ∃ s', visitChildrenList visit_translation_unit p cs s = some (true, s') ∧
      s'.issues = (s.issues + 1) % UINT_MAX1 ∧
      s'.stderr = (if s.quiet then s.stderr else s.stderr ++ [report_of first]) := by
  induction cs generalizing s with
  | nil => simp at hne
  | cons c more ih =>
    obtain ⟨s1, hv, h1q, h1f, h1g, h1c, h1i, h1e⟩ := visit_translation_unit_step c p s names hg hcd
    by_cases hr : reportable names c = true
    · rw [List.filter_cons_of_pos hr] at hne
      have hfirst : c = first := (List.cons.inj hne).1
      subst hfirst
      refine ⟨s1, ?_, ?_, ?_⟩
      · rw [visitChildrenList, hv]; simp [hff, hr]
      · simpa [hr] using h1i
      · rw [h1e]
        by_cases hq : s.quiet = true
        · simp [hq]
        · simp [hq, hr]
    · rw [List.filter_cons_of_neg hr] at hne
      have hg1 : s1.gucs.slots = names.map (fun n => some (some n)) := by rw [h1g]; exact hg
      obtain ⟨s2, hw, h2i, h2e⟩ := ih s1 (h1f.trans hff) hg1 (by rw [h1c]; exact hcd) hne
      simp only [hr, if_false, Bool.false_eq_true] at h1i
      simp only [hr, Bool.false_and, if_false, Bool.false_eq_true] at h1e
      refine ⟨s2, ?_, ?_, ?_⟩
      · rw [visitChildrenList, hv]; simp [hr, hw]
      · rw [h2i, h1i]
      · rw [h2e, h1q, h1e]

theorem alloc_flags (s : State) :
    s.alloc.2.quiet = s.quiet ∧ s.alloc.2.fail_fast = s.fail_fast := by
  unfold State.alloc
  cases s.heap <;> exact ⟨rfl, rfl⟩

theorem main_path_option_flags (env : Env) (vec : vector) (optarg : CharPtr) (s : State) :
    (main_path_option env vec optarg s).2.2.quiet = s.quiet ∧
      (main_path_option env vec optarg s).2.2.fail_fast = s.fail_fast := by
  have ha := alloc_flags s
  unfold main_path_option
  by_cases hc : vec.cap = 0
  · simp only [hc, if_true]
    by_cases hi : (vector_init vec 4 s.alloc.1).1 = true
    · simp only [hi, Bool.not_true, Bool.false_eq_true, if_false]
      cases optarg.bind env.realpath with
      | none => exact ha
      | some path =>
        simp only
        have hb := alloc_flags s.alloc.2
        split_ifs <;> simp_all [State.eprint]
    · simp only [Bool.not_eq_true] at hi
      simp only [hi, Bool.not_false, if_true]
      exact ha
  · simp only [hc, if_false, Bool.not_true, Bool.false_eq_true]
    cases optarg.bind env.realpath with
    | none => exact ⟨rfl, rfl⟩
    | some path =>
      simp only
      split_ifs <;> simp_all [State.eprint]

theorem getopt_loop_quiet (env : Env) (opts : List Opt) (s : State)
    (h : s.quiet = true → s.fail_fast = true) :
    (getopt_loop env opts s).2.quiet = true → (getopt_loop env opts s).2.fail_fast = true := by
  induction opts generalizing s with
  | nil => exact h
  | cons o rest ih =>
    cases o with
    | one => exact ih _ (fun _ => rfl)
    | e optarg =>
      have hf := main_path_option_flags env s.excludes optarg s
      rw [getopt_loop]
      rcases hm : main_path_option env s.excludes optarg s with ⟨_ | rc, vec, s1⟩
      · rw [hm] at hf
        simp only at hf
        exact ih _ (by simp only [hf.1, hf.2]; exact h)
      · rw [hm] at hf
        simp only at hf
        simp only [hf.1, hf.2]; exact h
    | h => exact h
    | i optarg =>
      have hf := main_path_option_flags env s.includes optarg s
      rw [getopt_loop]
      rcases hm : main_path_option env s.includes optarg s with ⟨_ | rc, vec, s1⟩
      · rw [hm] at hf
        simp only at hf
        exact ih _ (by simp only [hf.1, hf.2]; exact h)
      · rw [hm] at hf
        simp only at hf
        simp only [hf.1, hf.2]; exact h
    | q => exact ih _ (fun _ => rfl)
    | missing => exact h
    | unknown => exact h

theorem slots_of_eq (n : Nat) (h : n < UINT_MAX1) : slots_of n = n := by
  unfold slots_of SIZEOF_PTR SIZE_MAX1
  unfold UINT_MAX1 at h
  omega

theorem path_vector_eq (p : CStr) : path_vector p = ⟨[some p, none, none, none], 4, 1⟩ := by
  have h4 : slots_of 4 = 4 := by decide
  simp [path_vector, vector_init, vector_append, vector.zero, List.replicate, h4]


theorem take_succ_set {α : Type} (l : List α) (n : Nat) (a : α) (h : n < l.length) :
    (l.set n a).take (n + 1) = l.take n ++ [a] := by
  induction l generalizing n with
  | nil => simp at h
  | cons x xs ih =>
    cases n with
    | zero => simp
    | succ n => simp [ih n (by simpa using h)]

theorem ignore_arg_eq (arg : CStr) : ignore_arg arg = List.isPrefixOf "-W".toList arg := by
  rw [Bool.eq_iff_iff]
  simp [ignore_arg, strstr_eq_zero_iff]

theorem copy_args_loop_spec (l : List CStr) (v : vector) (s : State)
    (hcap : v.len + (l.filter (fun a => !ignore_arg a)).length ≤ v.cap)
    (hdata : v.data.length = v.cap) :
    ∃ ok v' s', copy_args_loop (l.map some) v s = some (ok, v', s') ∧
      (ok = true ↔ (s.heap.take (l.filter (fun a => !ignore_arg a)).length).all id = true) ∧
      (ok = true →
        v'.len = v.len + (l.filter (fun a => !ignore_arg a)).length ∧
        v'.data.take v'.len = v.data.take v.len ++ (l.filter (fun a => !ignore_arg a)).map some) := by
  induction l generalizing v s with
  | nil => exact ⟨true, v, s, by simp [copy_args_loop], by simp, by simp⟩
  | cons arg rest ih =>
    by_cases hig : ignore_arg arg = true
    · have hf : (arg :: rest).filter (fun a => !ignore_arg a) =
          rest.filter (fun a => !ignore_arg a) := by
        rw [List.filter_cons_of_neg (by simp [hig])]
      rw [hf] at hcap ⊢
      obtain ⟨ok, v', s', h1, h2, h3⟩ := ih v s hcap hdata
      refine ⟨ok, v', s', ?_, h2, h3⟩
      rw [List.map_cons, copy_args_loop, if_pos hig, h1]
    · have hf : (arg :: rest).filter (fun a => !ignore_arg a) =
          arg :: rest.filter (fun a => !ignore_arg a) := by
        rw [List.filter_cons_of_pos (by simp [hig])]
      rw [hf] at hcap ⊢
      generalize hk : (rest.filter (fun a => !ignore_arg a)).length = k at *
      generalize hkept : rest.filter (fun a => !ignore_arg a) = kept at *
      simp only [List.length_cons, hk] at hcap ⊢
      have hne : v.len ≠ v.cap := by omega
      have hv : vector_append v (some arg) true =
          (true, { v with data := v.data.set v.len (some arg), len := v.len + 1 }) := by
        simp [vector_append, hne]
      have hset : v.len < v.data.length := by omega
      cases hh : s.heap with
      | nil =>
        have ha : s.alloc = (true, s) := by unfold State.alloc; rw [hh]
        obtain ⟨ok, v', s', h1, h2, h3⟩ :=
          ih { v with data := v.data.set v.len (some arg), len := v.len + 1 } s
            (by simp only [hk]; omega) (by simpa using hdata)
        refine ⟨ok, v', s', ?_, ?_, ?_⟩
        · rw [List.map_cons, copy_args_loop, if_neg hig]
          simp only [ha, hne, if_false, hv, Bool.not_true, Bool.false_eq_true]
          exact h1
        · rw [hh] at h2; simpa using h2
        · intro hok
          obtain ⟨h4, h5⟩ := h3 hok
          simp only [hk] at h4 h5
          refine ⟨by omega, ?_⟩
          rw [h5, take_succ_set v.data v.len (some arg) hset]
          simp
      | cons b h' =>
        have ha : s.alloc = (b, { s with heap := h' }) := by unfold State.alloc; rw [hh]
        cases b with
        | false =>
          refine ⟨false, v, { s with heap := h' }, ?_, by simp, by simp⟩
          rw [List.map_cons, copy_args_loop, if_neg hig]
          simp [ha]
        | true =>
          obtain ⟨ok, v', s', h1, h2, h3⟩ :=
            ih { v with data := v.data.set v.len (some arg), len := v.len + 1 }
              { s with heap := h' } (by simp only [hk]; omega) (by simpa using hdata)
          refine ⟨ok, v', s', ?_, ?_, ?_⟩
          · rw [List.map_cons, copy_args_loop, if_neg hig]
            simp only [ha, hne, if_false, hv, Bool.not_true, Bool.false_eq_true]
            exact h1
          · simpa using h2
          · intro hok
            obtain ⟨h4, h5⟩ := h3 hok
            simp only [hk] at h4 h5
            refine ⟨by omega, ?_⟩
            rw [h5, take_succ_set v.data v.len (some arg) hset]
            simp

theorem copy_args_reads (command : CXCompileCommand) (h1 : 1 ≤ command.args.length) :
    (List.range ((command.args.length + UINT_MAX1 - 1) % UINT_MAX1)).map
        (fun i => command.args.get? i) = command.args.dropLast.map some := by
  have hlt := command.args_lt
  have hn : (command.args.length + UINT_MAX1 - 1) % UINT_MAX1 = command.args.length - 1 := by
    have : command.args.length + UINT_MAX1 - 1 = (command.args.length - 1) + UINT_MAX1 := by omega
    rw [this, Nat.add_mod_right, Nat.mod_eq_of_lt (by omega)]
  rw [hn, range_map_get? command.args _ (by omega), List.dropLast_eq_take]

theorem kept_args_eq (command : CXCompileCommand) :
    command.args.dropLast.filter (fun a => !ignore_arg a) = kept_args command := by
  unfold kept_args
  congr 1
  funext a
  rw [ignore_arg_eq]

theorem copy_args_spec (command : CXCompileCommand) (args : vector) (s : State)
    (h1 : 1 ≤ command.args.length) :
    ∃ ok v s', copy_args command args s = some (ok, v, s') ∧
      (ok = true ↔ (s.heap.take ((kept_args command).length + 1)).all id = true) ∧
      (ok = true →
        v.len = (kept_args command).length ∧
        v.data.take v.len = (kept_args command).map some) := by
  have hlt := command.args_lt
  have hn : (command.args.length + UINT_MAX1 - 1) % UINT_MAX1 = command.args.length - 1 := by
    have : command.args.length + UINT_MAX1 - 1 = (command.args.length - 1) + UINT_MAX1 := by omega
    rw [this, Nat.add_mod_right, Nat.mod_eq_of_lt (by omega)]
  have hkl : (command.args.dropLast.filter (fun a => !ignore_arg a)).length ≤
      command.args.length - 1 := by
    have := List.length_filter_le (fun a => !ignore_arg a) command.args.dropLast
    simpa using this
  have hso : slots_of (command.args.length - 1) = command.args.length - 1 :=
    slots_of_eq _ (by omega)
  unfold copy_args
  simp only []
  rw [copy_args_reads command h1]
  cases hh : s.heap with
  | nil =>
    have ha : s.alloc = (true, s) := by unfold State.alloc; rw [hh]
    obtain ⟨ok, v, s', h2, h3, h4⟩ := copy_args_loop_spec command.args.dropLast
      (vector_init args ((command.args.length + UINT_MAX1 - 1) % UINT_MAX1) true).2 s
      (by simp [vector_init, hn]; exact hkl) (by simp [vector_init, hn, hso])
    rw [kept_args_eq] at h3 h4
    refine ⟨ok, v, s', ?_, ?_, ?_⟩
    · simp only [ha]
      simpa [vector_init] using h2
    · rw [hh] at h3; simpa using h3
    · intro hok
      simpa [vector_init] using h4 hok
  | cons b h' =>
    have ha : s.alloc = (b, { s with heap := h' }) := by unfold State.alloc; rw [hh]
    cases b with
    | false =>
      exact ⟨false, { data := [], cap := 0, len := 0 }, { s with heap := h' },
        by simp [ha, vector_init], by simp, by simp⟩
    | true =>
      obtain ⟨ok, v, s', h2, h3, h4⟩ := copy_args_loop_spec command.args.dropLast
        (vector_init args ((command.args.length + UINT_MAX1 - 1) % UINT_MAX1) true).2
        { s with heap := h' }
        (by simp [vector_init, hn]; exact hkl) (by simp [vector_init, hn, hso])
      rw [kept_args_eq] at h3 h4
      refine ⟨ok, v, s', ?_, ?_, ?_⟩
      · simp only [ha]
        simpa [vector_init] using h2
      · simpa using h3
      · intro hok
        simpa [vector_init] using h4 hok

theorem strncmp_isPrefixOf (f p : CStr) :
    decide (strncmp f p (strlen p) = 0) = p.isPrefixOf f := by
  rw [Bool.eq_iff_iff]
  simp [strncmp_strlen_iff]

/-- What the include loop of `analyze` computes: the file is skipped as soon as one
include path is not a prefix of its path. -/
theorem includes_loop_eq (path : CStr) (incs : List CStr) :
    includes_loop path (incs.map (fun i => some (some i))) =
      some (incs.any (fun i => !(i.isPrefixOf path))) := by
  induction incs with
  | nil => rfl
  | cons i rest ih =>
    simp only [List.map_cons, includes_loop, List.any_cons, ← strncmp_isPrefixOf, ih]
    by_cases h : strncmp path i (strlen i) = 0
    · simp [h]
    · simp [h]

/-- What the exclude loop of `analyze` computes: the file is skipped when an exclude
path that was not set to NULL is a prefix of its path. -/
theorem excludes_loop_eq (path : CStr) (exs : List CharPtr) :
    excludes_loop path (exs.map some) =
      some (exs.any (fun e => match e with
        | some x => x.isPrefixOf path
        | none => false)) := by
  induction exs with
  | nil => rfl
  | cons e rest ih =>
    cases e with
    | none => simp only [List.map_cons, excludes_loop, List.any_cons, ih, Bool.false_or]
    | some x =>
      simp only [List.map_cons, excludes_loop, List.any_cons, ← strncmp_isPrefixOf, ih]
      by_cases h : strncmp path x (strlen x) = 0
      · simp [h]
      · simp [h]

/-- What the scope check of `analyze` computes for well-formed path vectors: the
file is kept only if every include path is a prefix of its path and no remaining
exclude path is. -/
theorem analyze_skip_eq (path : CStr) (s : State) (incs : List CStr) (exs : List CharPtr)
    (hi : s.includes.slots = incs.map (fun i => some (some i)))
    (he : s.excludes.slots = exs.map some) :
    analyze_skip path false s =
      some (incs.any (fun i => !(i.isPrefixOf path)) ||
        exs.any (fun e => match e with
          | some x => x.isPrefixOf path
          | none => false)) := by
  unfold analyze_skip
  rw [hi, he, includes_loop_eq, excludes_loop_eq]
  by_cases h : incs.any (fun i => !(i.isPrefixOf path)) = true
  · simp [h]
  · simp only [Bool.not_eq_true] at h
    simp [h]

/-! ## Lemmas: the extraction and the clean run -/

theorem slots_of_small (n : Nat) (h : n < 2 ^ 61) : slots_of n = n := by
  unfold slots_of SIZEOF_PTR SIZE_MAX1
  omega

theorem holds_slots (vec : vector) (names : List CStr) (h : vec.holds names) :
    vec.slots = names.map (fun n => some (some n)) := by
  obtain ⟨_, h2, h3, h4, _⟩ := h
  rw [slots_eq vec (by omega), h2, List.map_map]
  rfl

theorem vector_init_holds (vec : vector) (capacity : Nat) (h0 : 0 < capacity)
    (hc : capacity < 2 ^ 61) : (vector_init vec capacity true).2.holds [] := by
  simp [vector_init, vector.holds, slots_of_small capacity hc, h0]

/-- What `vector_append` does when it succeeds, for a vector with `0 < cap`,
`len <= cap` and at least `cap` slots: `len + 1 <= cap <= slots` afterwards, the
first `len` items are kept and the new item is at index `len`. -/
theorem vector_append_ok (vec : vector) (item : CharPtr)
    (h0 : 0 < vec.cap) (hl : vec.len ≤ vec.cap) (hd : vec.cap ≤ vec.data.length)
    (hc : vec.cap < 2 ^ 60) :
    (vector_append vec item true).1 = true ∧
      (vector_append vec item true).2.len = vec.len + 1 ∧
      (vector_append vec item true).2.len ≤ (vector_append vec item true).2.cap ∧
      (vector_append vec item true).2.cap ≤ (vector_append vec item true).2.data.length ∧
      (vector_append vec item true).2.data.take (vec.len + 1) = vec.data.take vec.len ++ [item] := by
  unfold vector_append
  by_cases hf : vec.len = vec.cap
  · have h2 : (vec.cap * 2) % SIZE_MAX1 = vec.cap * 2 := by
      unfold SIZE_MAX1; omega
    have h3 : slots_of (vec.cap * 2) = vec.cap * 2 := slots_of_small _ (by omega)
    simp only [hf, if_true, h2, h3, Bool.not_true, Bool.false_eq_true, if_false]
    have hlen : (realloc vec.data (vec.cap * 2)).length = vec.cap * 2 := by
      simp [realloc]; omega
    refine ⟨trivial, trivial, by omega, by simp [hlen], ?_⟩
    rw [take_succ_set _ _ _ (by omega)]
    congr 1
    simp only [realloc]
    rw [List.take_append_of_le_length (by simp; omega), List.take_take]
    congr 1
    omega
  · simp only [hf, if_false]
    refine ⟨trivial, trivial, by omega, by simpa using hd, ?_⟩
    exact take_succ_set _ _ _ (by omega)

theorem vector_append_holds (vec : vector) (names : List CStr) (x : CStr) (ok : Bool)
    (h : vec.holds names) (hn : names.length < 2 ^ 60) (hok : vec.len = vec.cap → ok = true) :
    (vector_append vec (some x) ok).1 = true ∧
      (vector_append vec (some x) ok).2.holds (names ++ [x]) := by
  obtain ⟨h1, h2, h3, h4, h5⟩ := h
  unfold vector_append
  by_cases hf : vec.len = vec.cap
  · have hc : vec.cap < 2 ^ 60 := by omega
    have h6 : (vec.cap * 2) % SIZE_MAX1 = vec.cap * 2 := by
      unfold SIZE_MAX1; omega
    have h7 : slots_of (vec.cap * 2) = vec.cap * 2 := slots_of_small _ (by omega)
    simp only [hf, if_true, h6, h7, hok hf, Bool.not_true, Bool.false_eq_true, if_false]
    have hlen : (realloc vec.data (vec.cap * 2)).length = vec.cap * 2 := by
      simp [realloc]; omega
    refine ⟨trivial, by simp; omega, ?_, by simp [hlen], by first | omega | (dsimp only; omega), by first | omega | (dsimp only; omega)⟩
    simp only
    rw [take_succ_set _ _ _ (by omega)]
    simp only [realloc]
    rw [List.take_append_of_le_length (by simp; omega), List.take_take,
      show min vec.cap (vec.cap * 2) = vec.len by omega, h2]
    simp
  · simp only [hf, if_false]
    refine ⟨trivial, by simp; omega, ?_, by simpa using h3, by first | omega | (dsimp only; omega), h5⟩
    simp only
    rw [take_succ_set _ _ _ (by omega), h2]
    simp

theorem visit_children_nil {σ : Type}
    (visitor : CXCursor → CXCursor → σ → Option (CXChildVisitResult × σ)) (c : CXCursor) (s : σ)
    (h : c.children = []) : clang_visitChildren visitor c s = some (false, s) := by
  rw [clang_visitChildren_eq, h]; rfl

theorem visit_guc_fields_count (c p : CXCursor) (s : State)
    (hp : s.ctx.client_data = Ptr.iter) (hne : s.iter.curr ≠ s.iter.want) :
    visit_guc_fields c p s =
      some (CXChildVisitResult.Continue,
        { s with iter := { s.iter with curr := (s.iter.curr + 1) % UINT_MAX1 } }) := by
  unfold visit_guc_fields
  simp only [hp, hne, if_false]

theorem visit_guc_fields_examine (c p : CXCursor) (s : State)
    (hp : s.ctx.client_data = Ptr.iter) (heq : s.iter.curr = s.iter.want) :
    visit_guc_fields c p s =
      if c.kind = CXCursorKind.UnaryOperator then
        (clang_visitChildren visit_initializer c s).map
          (fun r => (CXChildVisitResult.Break, r.2))
      else some (CXChildVisitResult.Break, s) := by
  unfold visit_guc_fields
  simp only [hp, heq, if_true]
  by_cases hk : c.kind = CXCursorKind.UnaryOperator
  · simp only [hk, if_true]
  · simp only [hk, if_false]

/-- The walk of `visit_guc_fields` over the children of an entry that are left, the
iterator being at `curr <= want`: the child at offset `want - curr` is the one
examined; the children before it are counted. -/
theorem guc_fields_walk (p : CXCursor) (cs : List CXCursor) (s : State)
    (hp : s.ctx.client_data = Ptr.iter) (hle : s.iter.curr ≤ s.iter.want)
    (hw : s.iter.want < UINT_MAX1) :
    visitChildrenList visit_guc_fields p cs s =
      match cs.get? (s.iter.want - s.iter.curr) with
      | none => some (false, { s with iter := ⟨s.iter.curr + cs.length, s.iter.want⟩ })
      | some c =>
        if c.kind = CXCursorKind.UnaryOperator then
          (clang_visitChildren visit_initializer c
            { s with iter := ⟨s.iter.want, s.iter.want⟩ }).map (fun r => (true, r.2))
        else some (true, { s with iter := ⟨s.iter.want, s.iter.want⟩ }) := by
  induction cs generalizing s with
  | nil => simp [visitChildrenList]
  | cons c rest ih =>
    rw [visitChildrenList]
    by_cases heq : s.iter.curr = s.iter.want
    · have hs : ({ s with iter := ⟨s.iter.want, s.iter.want⟩ } : State) = s := by
        cases s with
        | mk ff q ex inc g ctx iss ann fi it err out hp =>
          cases it with
          | mk curr want => simp only at heq; subst heq; rfl
      rw [visit_guc_fields_examine c p s hp heq]
      simp only [heq, Nat.sub_self, List.get?_cons_zero, hs]
      by_cases hk : c.kind = CXCursorKind.UnaryOperator
      · simp only [hk, if_true]
        cases clang_visitChildren visit_initializer c s with
        | none => rfl
        | some r => rfl
      · simp only [hk, if_false]
    · have hlt : s.iter.curr < s.iter.want := lt_of_le_of_ne hle heq
      have hmod : (s.iter.curr + 1) % UINT_MAX1 = s.iter.curr + 1 :=
        Nat.mod_eq_of_lt (by omega)
      rw [visit_guc_fields_count c p s hp heq]
      simp only [hmod]
      rw [ih { s with iter := { s.iter with curr := s.iter.curr + 1 } } hp
        (by first | omega | (dsimp only; omega)) hw]
      have hsub : s.iter.want - s.iter.curr = (s.iter.want - (s.iter.curr + 1)) + 1 := by omega
      simp only [hsub, List.get?_cons_succ]
      cases rest.get? (s.iter.want - (s.iter.curr + 1)) with
      | none =>
        simp only [List.length_cons]
        rw [show s.iter.curr + 1 + rest.length = s.iter.curr + (rest.length + 1) by omega]
      | some c2 => rfl

theorem alloc_eq (s : State) :
    s.alloc = (s.heap.head?.getD true, { s with heap := s.heap.tail }) := by
  unfold State.alloc
  cases h : s.heap with
  | nil =>
    have : ({ s with heap := [] } : State) = s := by
      cases s; simp only at h; subst h; rfl
    simp [this]
  | cons b rest => rfl

theorem no_fail_head (s : State) (h : no_fail s) : s.heap.head?.getD true = true := by
  unfold no_fail at h
  cases hh : s.heap with
  | nil => rfl
  | cons b rest => rw [hh] at h; simpa using h b (List.mem_cons_self _ _)

theorem no_fail_tail (s : State) (h : no_fail s) :
    no_fail { s with heap := s.heap.tail } := by
  unfold no_fail at h ⊢
  intro b hb
  exact h b (List.mem_of_mem_tail hb)

theorem no_fail_of_heap (s t : State) (h : no_fail s) (ht : t.heap = s.heap) : no_fail t := by
  unfold no_fail at h ⊢
  rw [ht]; exact h

/-- What `visit_initializer` does on a reference to a declaration whose name
contains "_address", when no allocation fails: the name up to the first "_address"
is appended to `gucs` and nothing else changes. -/
theorem visit_initializer_ok (d p : CXCursor) (s : State) (names : List CStr) (off : Nat)
    (hk : d.kind = CXCursorKind.DeclRefExpr)
    (hs : strstr d.spelling "_address".toList = some off)
    (h : extracting s names) (hn : names.length < 2 ^ 60) :
    ∃ s', visit_initializer d p s = some (CXChildVisitResult.Break, s') ∧
      s'.fixed = s.fixed ∧ extracting s' (names ++ [d.spelling.take off]) ∧
      s'.ctx = s.ctx ∧ s'.iter = s.iter ∧ s'.field_index = s.field_index := by
  obtain ⟨hh, hf⟩ := h
  have hf1 := no_fail_tail s hf
  have hf2 := no_fail_tail _ hf1
  have hd1 := no_fail_head s hf
  have hd2 := no_fail_head _ hf1
  unfold visit_initializer
  simp only [alloc_eq, hk, hs, hd1, ne_eq, not_true_eq_false, if_false, Bool.not_true,
    Bool.false_eq_true]
  by_cases hfull : s.gucs.len = s.gucs.cap
  · obtain ⟨ha, hb⟩ := vector_append_holds s.gucs names (d.spelling.take off) true hh hn
      (fun _ => rfl)
    simp only [hfull, if_true] at hd2 ⊢
    simp only [hd2, ha, Bool.not_true, Bool.false_eq_true, if_false]
    exact ⟨_, rfl, rfl, ⟨hb, hf2⟩, rfl, rfl, rfl⟩
  · obtain ⟨ha, hb⟩ := vector_append_holds s.gucs names (d.spelling.take off) true hh hn
      (fun _ => rfl)
    simp only [hfull, if_false, ha, Bool.not_true, Bool.false_eq_true]
    exact ⟨_, rfl, rfl, ⟨hb, hf1⟩, rfl, rfl, rfl⟩

/-- The walk of `visit_initializer` over the children of an address field that
`field_ok` accepts. -/
theorem initializer_walk (c : CXCursor) (s : State) (names : List CStr)
    (hu : c.kind = CXCursorKind.UnaryOperator) (hok : field_ok c = true)
    (h : extracting s names) (hn : names.length < 2 ^ 60) :
    ∃ b s', clang_visitChildren visit_initializer c s = some (b, s') ∧
      s'.fixed = s.fixed ∧ extracting s' (names ++ (field_name c).toList) ∧
      s'.ctx = s.ctx ∧ s'.iter = s.iter ∧ s'.field_index = s.field_index := by
  rw [clang_visitChildren_eq]
  unfold field_ok at hok
  unfold field_name
  simp only [hu, if_true] at hok ⊢
  cases hc : c.children with
  | nil =>
    refine ⟨false, s, rfl, rfl, ?_, rfl, rfl, rfl⟩
    simpa using h
  | cons d rest =>
    rw [hc] at hok
    simp only [Bool.and_eq_true, decide_eq_true_eq] at hok
    obtain ⟨hk, hsome⟩ := hok
    obtain ⟨off, hoff⟩ := Option.isSome_iff_exists.mp hsome
    obtain ⟨s', h1, h2, h3, h4, h5, h6⟩ := visit_initializer_ok d c s names off hk hoff h hn
    refine ⟨true, s', ?_, h2, ?_, h4, h5, h6⟩
    · rw [visitChildrenList, h1]
    · simp only [hoff]; exact h3

theorem visit_guc_unfold (entry p : CXCursor) (s : State)
    (hp : s.ctx.client_data = Ptr.field_index) :
    visit_guc entry p s =
      (if entry.kind = CXCursorKind.InitListExpr then
        (clang_visitChildren visit_guc_fields entry
          { s with iter := { curr := 0, want := s.field_index },
                   ctx := { s.ctx with client_data := Ptr.iter } }).map (fun r => r.2)
      else
        some { s with iter := { curr := 0, want := s.field_index },
                      ctx := { s.ctx with client_data := Ptr.iter } }).map
        (fun s2 => (CXChildVisitResult.Continue,
          { s2 with ctx := { s2.ctx with client_data := Ptr.field_index } })) := by
  unfold visit_guc
  simp only [hp, State.load_uint]
  by_cases hk : entry.kind = CXCursorKind.InitListExpr
  · simp only [hk, if_true]
  · simp only [hk, if_false]

/-- The entry walk when the child at position `field_index` is a unary operator:
`visit_guc` descends into it with `visit_initializer`. -/
theorem visit_guc_descend (entry p c : CXCursor) (s : State)
    (hp : s.ctx.client_data = Ptr.field_index) (hk : s.field_index < UINT_MAX1)
    (hf : entry_field s.field_index entry = some c)
    (hu : c.kind = CXCursorKind.UnaryOperator) :
    visit_guc entry p s =
      (clang_visitChildren visit_initializer c
        { s with iter := ⟨s.field_index, s.field_index⟩,
                 ctx := { s.ctx with client_data := Ptr.iter } }).map
        (fun r => (CXChildVisitResult.Continue,
          { r.2 with ctx := { r.2.ctx with client_data := Ptr.field_index } })) := by
  unfold entry_field at hf
  by_cases hi : entry.kind = CXCursorKind.InitListExpr
  · simp only [hi, if_true] at hf
    rw [visit_guc_unfold entry p s hp, clang_visitChildren_eq,
      guc_fields_walk entry entry.children _ rfl (Nat.zero_le _) hk]
    simp only [hi, if_true, Nat.sub_zero, hf, hu]
    cases clang_visitChildren visit_initializer c
        { s with iter := ⟨s.field_index, s.field_index⟩,
                 ctx := { s.ctx with client_data := Ptr.iter } } with
    | none => rfl
    | some r => rfl
  · simp [hi] at hf

/-- The entry walk when the child at position `field_index` is missing or is not a
unary operator: only the iterator of `visit_guc` changes. -/
theorem visit_guc_skip (entry p : CXCursor) (s : State)
    (hp : s.ctx.client_data = Ptr.field_index) (hk : s.field_index < UINT_MAX1)
    (hf : ∀ c, entry_field s.field_index entry = some c → c.kind ≠ CXCursorKind.UnaryOperator) :
    ∃ it, visit_guc entry p s = some (CXChildVisitResult.Continue, { s with iter := it }) := by
  have hctx : ({ s.ctx with client_data := Ptr.field_index } : parse_context) = s.ctx := by
    rw [← hp]
  unfold entry_field at hf
  rw [visit_guc_unfold entry p s hp]
  by_cases hi : entry.kind = CXCursorKind.InitListExpr
  · simp only [hi, if_true] at hf ⊢
    rw [clang_visitChildren_eq, guc_fields_walk entry entry.children _ rfl (Nat.zero_le _) hk]
    simp only [Nat.sub_zero]
    cases hg : entry.children.get? s.field_index with
    | none => exact ⟨⟨0 + entry.children.length, s.field_index⟩, by simp [hctx]⟩
    | some c =>
      have hne := hf c hg
      simp only [hne, if_false]
      exact ⟨⟨s.field_index, s.field_index⟩, by simp [hctx]⟩
  · simp only [hi, if_false]
    exact ⟨⟨0, s.field_index⟩, by simp [hctx]⟩

/-- What `visit_guc` does on an entry record that `entry_ok` accepts, when no
allocation fails. -/
theorem visit_guc_ok (entry p : CXCursor) (s : State) (names : List CStr)
    (hp : s.ctx.client_data = Ptr.field_index) (hk : s.field_index < UINT_MAX1)
    (hok : entry_ok s.field_index entry = true)
    (h : extracting s names) (hn : names.length < 2 ^ 60) :
    ∃ s', visit_guc entry p s = some (CXChildVisitResult.Continue, s') ∧
      s'.fixed = s.fixed ∧
      extracting s' (names ++ (entry_name s.field_index entry).toList) ∧
      s'.ctx = s.ctx ∧ s'.field_index = s.field_index := by
  have hctx : ({ s.ctx with client_data := Ptr.field_index } : parse_context) = s.ctx := by
    rw [← hp]
  unfold entry_ok at hok
  unfold entry_name
  cases hf : entry_field s.field_index entry with
  | none =>
    obtain ⟨it, hv⟩ := visit_guc_skip entry p s hp hk (by simp [hf])
    exact ⟨_, hv, rfl, by simpa using h, rfl, rfl⟩
  | some c =>
    rw [hf] at hok
    simp only at hok
    by_cases hu : c.kind = CXCursorKind.UnaryOperator
    · obtain ⟨b, s', h1, h2, h3, h4, h5, h6⟩ := initializer_walk c
        { s with iter := ⟨s.field_index, s.field_index⟩,
                 ctx := { s.ctx with client_data := Ptr.iter } } names hu hok h hn
      rw [visit_guc_descend entry p c s hp hk hf hu, h1]
      refine ⟨_, rfl, ?_, ⟨h3.1, no_fail_of_heap s' _ h3.2 rfl⟩, ?_, h6⟩
      · simpa [State.fixed] using h2
      · simp only [h4, hctx]
    · obtain ⟨it, hv⟩ := visit_guc_skip entry p s hp hk
        (by intro c2 hc2; rw [hf] at hc2; cases hc2; exact hu)
      refine ⟨_, hv, rfl, ?_, rfl, rfl⟩
      have : field_name c = none := by simp [field_name, hu]
      simpa [this] using h

theorem guc_walk (p : CXCursor) (entries : List CXCursor) (s : State) (names : List CStr)
    (hp : s.ctx.client_data = Ptr.field_index) (hk : s.field_index < UINT_MAX1)
    (hok : entries.all (entry_ok s.field_index) = true)
    (h : extracting s names)
    (hn : names.length + (entries.filterMap (entry_name s.field_index)).length < 2 ^ 60) :
    ∃ s', visitChildrenList visit_guc p entries s = some (false, s') ∧
      s'.fixed = s.fixed ∧
      extracting s' (names ++ entries.filterMap (entry_name s.field_index)) ∧
      s'.ctx = s.ctx ∧ s'.field_index = s.field_index := by
  induction entries generalizing s names with
  | nil => exact ⟨s, rfl, rfl, by simpa using h, rfl, rfl⟩
  | cons e rest ih =>
    simp only [List.all_cons, Bool.and_eq_true] at hok
    have hlen : (names ++ (entry_name s.field_index e).toList).length +
        (rest.filterMap (entry_name s.field_index)).length =
        names.length + ((e :: rest).filterMap (entry_name s.field_index)).length := by
      cases hx : entry_name s.field_index e with
      | none => simp [List.filterMap_cons, hx]
      | some x => simp [List.filterMap_cons, hx]; omega
    obtain ⟨s1, h1, h2, h3, h4, h5⟩ :=
      visit_guc_ok e p s names hp hk hok.1 h (by omega)
    obtain ⟨s2, h6, h7, h8, h9, h10⟩ :=
      ih s1 (names ++ (entry_name s.field_index e).toList) (by rw [h4]; exact hp)
        (by rw [h5]; exact hk) (by rw [h5]; exact hok.2) h3 (by rw [h5]; omega)
    refine ⟨s2, ?_, h7.trans h2, ?_, h9.trans h4, h10.trans h5⟩
    · rw [visitChildrenList, h1]; exact h6
    · rw [h5] at h8
      have : names ++ (e :: rest).filterMap (entry_name s.field_index) =
          names ++ (entry_name s.field_index e).toList ++
            rest.filterMap (entry_name s.field_index) := by
        cases hx : entry_name s.field_index e with
        | none => simp [List.filterMap_cons, hx]
        | some x => simp [List.filterMap_cons, hx]
      rw [this]; exact h8

theorem visit_guc_table_ok (c p : CXCursor) (s : State) (names : List CStr)
    (hp : s.ctx.client_data = Ptr.field_index) (hk : s.field_index < UINT_MAX1)
    (hok : (list_entries [c]).all (entry_ok s.field_index) = true)
    (h : extracting s names)
    (hn : names.length + ((list_entries [c]).filterMap (entry_name s.field_index)).length
      < 2 ^ 60) :
    ∃ s', visit_guc_table c p s = some (CXChildVisitResult.Continue, s') ∧
      s'.fixed = s.fixed ∧
      extracting s' (names ++ (list_entries [c]).filterMap (entry_name s.field_index)) ∧
      s'.ctx = s.ctx ∧ s'.field_index = s.field_index := by
  unfold visit_guc_table
  by_cases hi : c.kind = CXCursorKind.InitListExpr
  · simp only [list_entries, hi, if_true, List.append_nil] at hok hn ⊢
    obtain ⟨s', h1, h2, h3, h4, h5⟩ := guc_walk c c.children s names hp hk hok h hn
    rw [clang_visitChildren_eq, h1]
    exact ⟨s', rfl, h2, h3, h4, h5⟩
  · simp only [list_entries, hi, if_false, List.append_nil, List.filterMap_nil] at hn ⊢
    exact ⟨s, rfl, rfl, by simpa using h, rfl, rfl⟩

theorem list_entries_cons (c : CXCursor) (rest : List CXCursor) :
    list_entries (c :: rest) = list_entries [c] ++ list_entries rest := by
  simp [list_entries]

theorem guc_table_walk (p : CXCursor) (cs : List CXCursor) (s : State) (names : List CStr)
    (hp : s.ctx.client_data = Ptr.field_index) (hk : s.field_index < UINT_MAX1)
    (hok : (list_entries cs).all (entry_ok s.field_index) = true)
    (h : extracting s names)
    (hn : names.length + ((list_entries cs).filterMap (entry_name s.field_index)).length
      < 2 ^ 60) :
    ∃ s', visitChildrenList visit_guc_table p cs s = some (false, s') ∧
      s'.fixed = s.fixed ∧
      extracting s' (names ++ (list_entries cs).filterMap (entry_name s.field_index)) ∧
      s'.ctx = s.ctx ∧ s'.field_index = s.field_index := by
  induction cs generalizing s names with
  | nil => exact ⟨s, rfl, rfl, by simpa [list_entries] using h, rfl, rfl⟩
  | cons c rest ih =>
    rw [list_entries_cons] at hok hn ⊢
    simp only [List.all_append, Bool.and_eq_true] at hok
    simp only [List.filterMap_append, List.length_append] at hn ⊢
    obtain ⟨s1, h1, h2, h3, h4, h5⟩ :=
      visit_guc_table_ok c p s names hp hk hok.1 h (by omega)
    obtain ⟨s2, h6, h7, h8, h9, h10⟩ :=
      ih s1 (names ++ (list_entries [c]).filterMap (entry_name s.field_index))
        (by rw [h4]; exact hp) (by rw [h5]; exact hk) (by rw [h5]; exact hok.2) h3
        (by rw [h5]; simp only [List.length_append]; omega)
    refine ⟨s2, ?_, h7.trans h2, ?_, h9.trans h4, h10.trans h5⟩
    · rw [visitChildrenList, h1]; exact h6
    · rw [h5, List.append_assoc] at h8
      exact h8

theorem visit_config_type_found (f : CStr) (s : State) (hf : f = "variable_addr".toList) :
    visit_config_type f s = some (CXVisitorResult.Break, s) := by
  unfold visit_config_type
  have h0 : strcmp f "variable_addr".toList = 0 := (strcmp_eq_zero_iff _ _).mpr hf
  simp only [h0, if_true]

theorem visit_config_type_other (f : CStr) (s : State) (hf : f ≠ "variable_addr".toList)
    (hp : s.ctx.client_data = Ptr.field_index) :
    visit_config_type f s =
      some (CXVisitorResult.Continue,
        { s with field_index := (s.field_index + 1) % UINT_MAX1 }) := by
  unfold visit_config_type
  have h0 : ¬ strcmp f "variable_addr".toList = 0 :=
    fun h => hf ((strcmp_eq_zero_iff _ _).mp h)
  simp only [h0, if_false, hp, State.incr_uint, Option.map_some']

/-- The field scan: `clang_Type_visitFields` with `visit_config_type` adds to
`field_index`, in `unsigned int`, the position of the first field named
`variable_addr`, and changes nothing else. -/
theorem config_type_scan (fields : List CStr) (s : State)
    (hp : s.ctx.client_data = Ptr.field_index) (hk : s.field_index < UINT_MAX1) :
    clang_Type_visitFields visit_config_type fields s =
      some { s with field_index := (s.field_index + field_position fields) % UINT_MAX1 } := by
  induction fields generalizing s with
  | nil =>
    simp only [clang_Type_visitFields, field_position, Nat.add_zero, Nat.mod_eq_of_lt hk]
  | cons f rest ih =>
    rw [clang_Type_visitFields]
    by_cases hf : f = "variable_addr".toList
    · rw [visit_config_type_found f s hf]
      simp only [field_position, hf, if_true, Nat.add_zero, Nat.mod_eq_of_lt hk]
    · rw [visit_config_type_other f s hf hp]
      simp only [field_position, hf, if_false]
      rw [ih { s with field_index := (s.field_index + 1) % UINT_MAX1 } hp
        (Nat.mod_lt _ (by decide))]
      simp only [Nat.mod_add_mod, Nat.add_assoc, Nat.add_comm 1]

theorem is_guc_table_any (T : CXCursor) :
    guc_tables.any (fun t => decide (strcmp T.spelling t = 0)) = decide (T.spelling ∈ guc_tables) := by
  rw [Bool.eq_iff_iff]
  simp only [List.any_eq_true, decide_eq_true_eq, strcmp_eq_zero_iff]
  constructor
  · rintro ⟨t, ht, rfl⟩; exact ht
  · intro h; exact ⟨T.spelling, h, rfl⟩

/-- What `visit_guc_tables` does on a top-level declaration that `table_ok`
accepts, when no allocation fails. -/
theorem visit_guc_tables_ok (T p : CXCursor) (s : State) (names : List CStr)
    (hok : table_ok T = true) (h : extracting s names)
    (hn : names.length + (table_names T).length < 2 ^ 60) :
    ∃ s', visit_guc_tables T p s = some (CXChildVisitResult.Continue, s') ∧
      s'.fixed = s.fixed ∧ extracting s' (names ++ table_names T) := by
  have hidx : table_index T < UINT_MAX1 := Nat.mod_lt _ (by decide)
  unfold visit_guc_tables
  unfold table_names at hn ⊢
  unfold table_ok at hok
  by_cases hk : T.kind = CXCursorKind.VarDecl
  swap
  · have hg : is_guc_table T = false := by simp [is_guc_table, hk]
    refine ⟨{ s with field_index := 0 }, ?_, rfl,
      ⟨by simpa [hg] using h.1, no_fail_of_heap s _ h.2 rfl⟩⟩
    split
    · rename_i hh; exact absurd hh hk
    · rfl
  simp only [hk]
  by_cases hgs : T.global_storage = true
  swap
  · have hg : is_guc_table T = false := by simp [is_guc_table, hgs]
    exact ⟨{ s with field_index := 0, ctx := { s.ctx with client_data := Ptr.field_index } },
      by simp [hgs], rfl, ⟨by simpa [hg] using h.1, no_fail_of_heap s _ h.2 rfl⟩⟩
  by_cases hm : T.spelling ∈ guc_tables
  swap
  · have hg : is_guc_table T = false := by simp [is_guc_table, hm]
    exact ⟨{ s with field_index := 0 }, by simp [hgs, is_guc_table_any, hm], rfl,
      ⟨by simpa [hg] using h.1, no_fail_of_heap s _ h.2 rfl⟩⟩
  have hg : is_guc_table T = true := by simp [is_guc_table, hk, hgs, hm]
  simp only [hg, if_true, Bool.not_true, Bool.false_or] at hn hok
  simp only [hgs, Bool.not_true, Bool.false_eq_true, if_false, is_guc_table_any, hm,
    decide_True, if_true, hg]
  rw [config_type_scan T.element_fields
    { s with field_index := 0, ctx := { s.ctx with client_data := Ptr.field_index } } rfl
    (show (0 : Nat) < UINT_MAX1 by decide)]
  simp only [Nat.zero_add]
  obtain ⟨s', h1, h2, h3, h4, h5⟩ := guc_table_walk T T.children
    { s with field_index := field_position T.element_fields % UINT_MAX1,
             ctx := { s.ctx with client_data := Ptr.field_index } } names rfl hidx hok
    ⟨h.1, no_fail_of_heap s _ h.2 rfl⟩ hn
  rw [clang_visitChildren_eq, h1]
  refine ⟨_, rfl, ?_, ⟨h3.1, no_fail_of_heap s' _ h3.2 rfl⟩⟩
  simpa [State.fixed] using h2

theorem guc_tables_walk (p : CXCursor) (decls : List CXCursor) (s : State) (names : List CStr)
    (hok : decls.all table_ok = true) (h : extracting s names)
    (hn : names.length + (extracted_names decls).length < 2 ^ 60) :
    ∃ s', visitChildrenList visit_guc_tables p decls s = some (false, s') ∧
      s'.fixed = s.fixed ∧ extracting s' (names ++ extracted_names decls) := by
  induction decls generalizing s names with
  | nil => exact ⟨s, rfl, rfl, by simpa [extracted_names] using h⟩
  | cons T rest ih =>
    simp only [List.all_cons, Bool.and_eq_true] at hok
    simp only [extracted_names, List.length_append] at hn ⊢
    obtain ⟨s1, h1, h2, h3⟩ := visit_guc_tables_ok T p s names hok.1 h (by omega)
    obtain ⟨s2, h4, h5, h6⟩ := ih s1 (names ++ table_names T) hok.2 h3
      (by simp only [List.length_append]; omega)
    refine ⟨s2, ?_, h5.trans h2, ?_⟩
    · rw [visitChildrenList, h1]; exact h4
    · rw [List.append_assoc] at h6; exact h6

theorem no_fail_drop (s t : State) (n : Nat) (h : no_fail s) (ht : t.heap = s.heap.drop n) :
    no_fail t := by
  unfold no_fail at h ⊢
  intro b hb
  rw [ht] at hb
  exact h b (List.mem_of_mem_drop hb)

theorem drop_of_tail {α : Type} (l : List α) (n : Nat) : l.tail.drop n = l.drop (n + 1) := by
  cases l with
  | nil => simp
  | cons a rest => simp

/-- The loop of `copy_args` changes nothing of the state but the allocator. -/
theorem copy_args_loop_frame (l : List (Option CStr)) (v : vector) (s : State)
    (r : Bool × vector × State) (h : copy_args_loop l v s = some r) :
    ∃ n, r.2.2 = { s with heap := s.heap.drop n } := by
  induction l generalizing v s with
  | nil =>
    simp only [copy_args_loop, Option.some.injEq] at h
    subst h
    exact ⟨0, by simp⟩
  | cons a rest ih =>
    cases a with
    | none => simp [copy_args_loop] at h
    | some arg =>
      rw [copy_args_loop] at h
      by_cases hig : ignore_arg arg = true
      · rw [if_pos hig] at h
        exact ih v s h
      · rw [if_neg hig] at h
        simp only [alloc_eq] at h
        by_cases hd : s.heap.head?.getD true = true
        · simp only [hd, Bool.not_true, Bool.false_eq_true, if_false] at h
          by_cases hfull : v.len = v.cap
          · simp only [hfull, if_true] at h
            obtain ⟨n, hn⟩ := ih _ _ h
            refine ⟨n + 1 + 1, ?_⟩
            rw [hn]
            simp only [drop_of_tail]
          · simp only [hfull, if_false] at h
            obtain ⟨n, hn⟩ := ih _ _ h
            refine ⟨n + 1, ?_⟩
            rw [hn]
            simp only [drop_of_tail]
        · simp only [hd, Bool.not_false, if_true, Option.some.injEq] at h
          subst h
          exact ⟨1, by simp only [← drop_of_tail, List.drop_zero]⟩

theorem tail_of_drop {α : Type} (l : List α) (n : Nat) : (l.drop n).tail = l.drop (n + 1) := by
  rw [← List.drop_one, List.drop_drop, Nat.add_comm]

theorem no_fail_all (s : State) (h : no_fail s) (n : Nat) : (s.heap.take n).all id = true := by
  rw [List.all_eq_true]
  intro b hb
  exact h b (List.mem_of_mem_take hb)

/-- What `copy_args` does when no allocation fails: it returns true with the kept
arguments, and only the allocator has moved on. -/
theorem copy_args_no_fail (command : CXCompileCommand) (args : vector) (s : State)
    (h1 : 1 ≤ command.args.length) (hf : no_fail s) :
    ∃ v n, copy_args command args s = some (true, v, { s with heap := s.heap.drop n }) ∧
      v.data.take v.len = (kept_args command).map some := by
  obtain ⟨ok, v, s', heq, hok, hv⟩ := copy_args_spec command args s h1
  have hok' : ok = true := hok.mpr (no_fail_all s hf _)
  subst hok'
  have hframe : ∃ n, s' = { s with heap := s.heap.drop n } := by
    have h2 := heq
    unfold copy_args at h2
    simp only [alloc_eq, no_fail_head s hf, vector_init, Bool.not_true, Bool.false_eq_true,
      if_false] at h2
    obtain ⟨n, hn⟩ := copy_args_loop_frame _ _ _ _ h2
    refine ⟨n + 1, ?_⟩
    simp only at hn
    rw [hn]
    simp only [drop_of_tail]
  obtain ⟨n, hn⟩ := hframe
  subst hn
  exact ⟨v, n, heq, (hv rfl).2⟩

/-- What `analyze` does for a file that resolves, is not skipped and parses, when no
allocation fails: the walk of its translation unit with the visitor. -/
theorem analyze_walk (env : Env) (command : CXCompileCommand)
    (visit : CXCursor → CXCursor → State → Option (CXChildVisitResult × State))
    (force : Bool) (client_data : Ptr) (s : State) (f : CStr) (tu : CXCursor)
    (hr : env.realpath_compdb command.filename = some f)
    (hskip : analyze_skip f force s = some false)
    (h1 : 1 ≤ command.args.length) (hf : no_fail s)
    (hparse : env.parse f ((kept_args command).map some) = some tu) :
    ∃ n, analyze env command visit force client_data s =
      (clang_visitChildren visit tu
        { s with heap := s.heap.drop n, ctx := { err := 0, client_data := client_data } }).map
        (fun r => ((if r.2.ctx.err ≠ 0 then 1 else 0 : Int), r.2)) := by
  obtain ⟨v, n, hc, hv⟩ := copy_args_no_fail command vector.zero s h1 hf
  have hf1 : no_fail { s with heap := s.heap.drop n } := no_fail_drop s _ n hf rfl
  refine ⟨n + 1, ?_⟩
  unfold analyze
  simp only [hr, hskip, hc, alloc_eq, no_fail_head _ hf1, hv, hparse, Bool.not_true,
    Bool.false_eq_true, if_false, tail_of_drop]
  cases clang_visitChildren visit tu
      { s with heap := s.heap.drop (n + 1), ctx := { err := 0, client_data := client_data } } with
  | none => rfl
  | some r => rfl

theorem analyze_skipped (env : Env) (command : CXCompileCommand)
    (visit : CXCursor → CXCursor → State → Option (CXChildVisitResult × State))
    (force : Bool) (client_data : Ptr) (s : State) (f : CStr)
    (hr : env.realpath_compdb command.filename = some f)
    (hskip : analyze_skip f force s = some true) :
    analyze env command visit force client_data s = some (0, s) := by
  unfold analyze
  simp only [hr, hskip]

theorem strstr_append_suffix (v : CStr) (h : ¬ "_address".toList <:+: v) :
    strstr (v ++ "_address".toList) "_address".toList = some v.length := by
  induction v with
  | nil => decide
  | cons c cs ih =>
    have hcs : ¬ "_address".toList <:+: cs := fun hi => h (hi.trans (List.suffix_cons c cs).isInfix)
    have hnp : ¬ "_address".toList <+: c :: cs ++ "_address".toList := by
      intro hp
      by_cases hl : "_address".toList.length ≤ (c :: cs).length
      · exact h (List.prefix_of_prefix_length_le hp (List.prefix_append _ _) hl).isInfix
      · have hw : c :: cs <+: "_address".toList :=
          List.prefix_of_prefix_length_le (List.prefix_append _ _) hp (by omega)
        have hw2 : c :: cs = "_address".toList.take (c :: cs).length :=
          List.prefix_iff_eq_take.mp hw
        have hk : (c :: cs).length < 8 := by
          have : "_address".toList.length = 8 := by decide
          omega
        have hk1 : 1 ≤ (c :: cs).length := by simp
        rw [hw2] at hp
        generalize (c :: cs).length = k at hp hk hk1
        interval_cases k <;> revert hp <;> decide
    have hnb : List.isPrefixOf "_address".toList (c :: (cs ++ "_address".toList)) = false := by
      rw [Bool.eq_false_iff]
      intro hb
      exact hnp (List.isPrefixOf_iff_prefix.mp hb)
    rw [List.cons_append, strstr, hnb]
    simp only [Bool.false_eq_true, if_false, ih hcs, Option.map_some', List.length_cons]

theorem read_guc_tables_ok (env : Env) (commandv : List CXCompileCommand) (s : State)
    (command : CXCompileCommand) (f : CStr) (tu : CXCursor)
    (hfind : find_guc_tables commandv none = some command)
    (hr : env.realpath_compdb command.filename = some f)
    (h1 : 1 ≤ command.args.length) (hf : no_fail s)
    (hparse : env.parse f ((kept_args command).map some) = some tu)
    (hok : tu.children.all table_ok = true)
    (hn : (extracted_names tu.children).length < 2 ^ 60) :
    ∃ s', read_guc_tables env commandv s = some (true, s') ∧
      extracting s' (extracted_names tu.children) ∧
      s'.fail_fast = s.fail_fast ∧ s'.quiet = s.quiet ∧ s'.excludes = s.excludes ∧
      s'.includes = s.includes ∧ s'.issues = s.issues ∧ s'.stderr = s.stderr ∧
      s'.stdout = s.stdout := by
  unfold read_guc_tables
  simp only [alloc_eq, no_fail_head s hf, hfind]
  have hf1 : no_fail { s with gucs := (vector_init s.gucs 512 true).2, heap := s.heap.tail } :=
    no_fail_drop s _ 1 hf (by simp)
  obtain ⟨n, ha⟩ := analyze_walk env command visit_guc_tables true Ptr.null
    { s with gucs := (vector_init s.gucs 512 true).2, heap := s.heap.tail } f tu hr rfl h1 hf1
    hparse
  simp only at ha
  rw [ha, clang_visitChildren_eq]
  have hex : extracting
      { s with gucs := (vector_init s.gucs 512 true).2,
               ctx := { err := 0, client_data := Ptr.null }, heap := s.heap.tail.drop n } [] :=
    ⟨vector_init_holds s.gucs 512 (by decide) (by decide), no_fail_drop _ _ n hf1 rfl⟩
  obtain ⟨s2, hw, hfix, hx⟩ := guc_tables_walk tu tu.children _ [] hok hex (by simpa using hn)
  rw [hw]
  simp only [State.fixed, Prod.mk.injEq] at hfix
  obtain ⟨e1, e2, e3, e4, e5, e6, e7, e8, e9⟩ := hfix
  refine ⟨s2, ?_, by simpa using hx, e1, e2, e3, e4, e6, e8, e9⟩
  simp [e5]

theorem visit_translation_unit_frame (c p : CXCursor) (s : State) (names : List CStr)
    (hg : s.gucs.slots = names.map (fun n => some (some n)))
    (hcd : s.ctx.client_data = Ptr.issues) :
    ∃ s' k, visit_translation_unit c p s = some (k, s') ∧
      s'.includes = s.includes ∧ s'.excludes = s.excludes ∧ s'.heap = s.heap ∧
      s'.stdout = s.stdout := by
  unfold visit_translation_unit
  by_cases hk : c.kind = CXCursorKind.VarDecl
  swap
  · refine ⟨s, CXChildVisitResult.Continue, ?_, rfl, rfl, rfl, rfl⟩
    split
    · rename_i h; exact absurd h hk
    · rfl
  simp only [hk]
  unfold visit_global_variable
  rw [yy_check]
  by_cases h1 : c.from_main_file = true
  swap
  · exact ⟨{ s with annotated := false }, CXChildVisitResult.Continue, by simp [h1], rfl, rfl, rfl, rfl⟩
  by_cases h2 : c.global_storage = true
  swap
  · exact ⟨{ s with annotated := false }, CXChildVisitResult.Continue, by simp [h1, h2], rfl, rfl, rfl, rfl⟩
  by_cases h3 : List.isPrefixOf ['y', 'y'] c.spelling = true
  · exact ⟨{ s with annotated := false }, CXChildVisitResult.Continue, by simp [h1, h2, h3], rfl, rfl, rfl, rfl⟩
  by_cases h4 : c.spelling ∈ names
  · exact ⟨{ s with annotated := false }, CXChildVisitResult.Continue,
      by simp [h1, h2, h3, hg, gucs_lookup_names, h4], rfl, rfl, rfl, rfl⟩
  simp only [h1, h2, h3, hg, gucs_lookup_names, h4, clang_visitChildren_eq]
  rw [annotation_walk c c.children _ rfl rfl]
  have hrec : c.children.any is_lifetime_tag = recognized c := rfl
  rw [hrec]
  by_cases h5 : recognized c = true
  · simp [h5]
  · simp only [Bool.not_eq_true] at h5
    by_cases hq : s.quiet = true
    · simp [h5, hcd, State.incr_uint, error, hq]
    · simp [h5, hcd, State.incr_uint, error, hq]

theorem translation_unit_walk_frame (p : CXCursor) (names : List CStr) (cs : List CXCursor)
    (s : State)
    (hg : s.gucs.slots = names.map (fun n => some (some n)))
    (hcd : s.ctx.client_data = Ptr.issues) :
    ∃ b s', visitChildrenList visit_translation_unit p cs s = some (b, s') ∧
      s'.gucs = s.gucs ∧ s'.ctx = s.ctx ∧ s'.quiet = s.quiet ∧ s'.fail_fast = s.fail_fast ∧
      s'.includes = s.includes ∧ s'.excludes = s.excludes ∧ s'.heap = s.heap ∧
      s'.stdout = s.stdout ∧
      ∃ reported : List CXCursor, reported.Sublist (cs.filter (reportable names)) ∧
        s'.stderr = s.stderr ++ (if s.quiet then [] else reported.map report_of) ∧
        s'.issues % UINT_MAX1 = (s.issues + reported.length) % UINT_MAX1 ∧
        (reported = [] → s'.issues = s.issues) := by
  induction cs generalizing s with
  | nil =>
    exact ⟨false, s, by simp [visitChildrenList], rfl, rfl, rfl, rfl, rfl, rfl, rfl, rfl, [],
      by simp, by simp, by simp, fun _ => rfl⟩
  | cons c rest ih =>
    obtain ⟨s1, hv, h1q, h1f, h1g, h1c, h1i, h1e⟩ := visit_translation_unit_step c p s names hg hcd
    obtain ⟨s1', k, hv', f1, f2, f3, f4⟩ := visit_translation_unit_frame c p s names hg hcd
    have hs : s1' = s1 := by
      have := hv'.symm.trans hv
      simp only [Option.some.injEq, Prod.mk.injEq] at this
      exact this.2
    subst hs
    have hg1 : s1'.gucs.slots = names.map (fun n => some (some n)) := by rw [h1g]; exact hg
    obtain ⟨b2, s2, hw, g1, g2, g3, g4, g5, g6, g7, g8, rep, hsub, hse, him, hi0⟩ :=
      ih s1' hg1 (by rw [h1c]; exact hcd)
    by_cases hr : reportable names c = true
    · simp only [hr, if_true] at h1i
      simp only [hr, Bool.true_and] at h1e
      by_cases hff : s.fail_fast = true
      · refine ⟨true, s1', ?_, h1g, h1c, h1q, h1f, f1, f2, f3, f4, [c], ?_, ?_, ?_, ?_⟩
        · rw [visitChildrenList, hv]; simp [hff, hr]
        · rw [List.filter_cons_of_pos hr]
          exact (List.nil_sublist _).cons₂ c
        · rw [h1e]
          by_cases hq : s.quiet = true
          · simp [hq]
          · simp [hq]
        · rw [h1i, Nat.mod_mod]; rfl
        · intro h; simp at h
      · refine ⟨b2, s2, ?_, g1.trans h1g, g2.trans h1c, g3.trans h1q, g4.trans h1f, g5.trans f1,
          g6.trans f2, g7.trans f3, g8.trans f4, c :: rep, ?_, ?_, ?_, ?_⟩
        · rw [visitChildrenList, hv]; simp [hff, hw]
        · rw [List.filter_cons_of_pos hr]
          exact hsub.cons₂ c
        · rw [hse, h1q, h1e]
          by_cases hq : s.quiet = true
          · simp [hq]
          · simp [hq]
        · rw [him, h1i, List.length_cons, Nat.add_mod, Nat.mod_mod, ← Nat.add_mod]
          congr 1
          omega
        · intro h; simp at h
    · simp only [hr, if_false, Bool.false_eq_true] at h1i
      simp only [hr, Bool.false_and, if_false, Bool.false_eq_true] at h1e
      refine ⟨b2, s2, ?_, g1.trans h1g, g2.trans h1c, g3.trans h1q, g4.trans h1f, g5.trans f1,
        g6.trans f2, g7.trans f3, g8.trans f4, rep, ?_, ?_, ?_, ?_⟩
      · rw [visitChildrenList, hv]; simp [hr, hw]
      · rw [List.filter_cons_of_neg hr]; exact hsub
      · rw [hse, h1q, h1e]
      · rw [him, h1i]
      · intro h; rw [hi0 h, h1i]

theorem analyze_skip_congr (f : CStr) (force : Bool) (s t : State)
    (hi : t.includes = s.includes) (he : t.excludes = s.excludes) :
    analyze_skip f force t = analyze_skip f force s := by
  unfold analyze_skip
  rw [hi, he]

theorem clean_command_congr (env : Env) (names : List CStr) (s t : State)
    (command : CXCompileCommand)
    (hi : t.includes = s.includes) (he : t.excludes = s.excludes)
    (h : clean_command env names s command) : clean_command env names t command := by
  obtain ⟨f, hr, h⟩ := h
  refine ⟨f, hr, ?_⟩
  rw [analyze_skip_congr f false s t hi he]
  exact h

theorem analyze_clean (env : Env) (command : CXCompileCommand) (s : State) (names : List CStr)
    (hc : clean_command env names s command) (hf : no_fail s) (hg : s.gucs.holds names) :
    ∃ s', analyze env command visit_translation_unit false Ptr.issues s = some (0, s') ∧
      no_fail s' ∧ s'.gucs = s.gucs ∧ s'.issues = s.issues ∧ s'.includes = s.includes ∧
      s'.excludes = s.excludes ∧ s'.stderr = s.stderr ∧ s'.stdout = s.stdout ∧
      s'.fail_fast = s.fail_fast ∧ s'.quiet = s.quiet := by
  obtain ⟨f, hr, hskip | ⟨hskip, h1, tu, hparse, hclean⟩⟩ := hc
  · exact ⟨s, analyze_skipped env command _ false _ s f hr hskip, hf, rfl, rfl, rfl, rfl, rfl,
      rfl, rfl, rfl⟩
  · obtain ⟨n, ha⟩ := analyze_walk env command visit_translation_unit false Ptr.issues s f tu
      hr hskip h1 hf hparse
    rw [ha, clang_visitChildren_eq]
    obtain ⟨b, s2, hw, g1, g2, g3, g4, g5, g6, g7, g8, rep, hsub, hse, _, hi0⟩ :=
      translation_unit_walk_frame tu names tu.children
        { s with heap := s.heap.drop n, ctx := { err := 0, client_data := Ptr.issues } }
        (holds_slots _ names hg) rfl
    rw [hclean] at hsub
    have hrep : rep = [] := List.sublist_nil.mp hsub
    subst hrep
    refine ⟨s2, ?_, no_fail_drop s s2 n hf g7, g1, hi0 rfl, g5, g6, ?_, g8, g4, g3⟩
    · rw [hw]
      simp [g2]
    · rw [hse]
      simp

theorem analyze_all_clean (env : Env) (names : List CStr) (cmds : List CXCompileCommand)
    (s : State) (hf : no_fail s) (hg : s.gucs.holds names)
    (hc : ∀ c ∈ cmds, clean_command env names s c) :
    ∃ s', analyze_all env cmds 0 s = some (0, s') ∧ s'.issues = s.issues ∧
      s'.stderr = s.stderr ∧ s'.stdout = s.stdout := by
  induction cmds generalizing s with
  | nil => exact ⟨s, rfl, rfl, rfl, rfl⟩
  | cons c rest ih =>
    obtain ⟨s1, ha, a1, a2, a3, a4, a5, a6, a7, _, _⟩ :=
      analyze_clean env c s names (hc c (List.mem_cons_self _ _)) hf hg
    obtain ⟨s2, hl, l1, l2, l3⟩ := ih s1 a1 (by rw [a2]; exact hg)
      (fun d hd => clean_command_congr env names s s1 d a4 a5 (hc d (List.mem_cons_of_mem _ hd)))
    refine ⟨s2, ?_, l1.trans a3, l2.trans a6, l3.trans a7⟩
    rw [analyze_all, ha]
    simp [hl]

theorem analyze_files_clean (env : Env) (compdb : CXCompilationDatabase) (names : List CStr)
    (slots : List (Option CharPtr)) (cmds : List CXCompileCommand)
    (s : State) (hf : no_fail s) (hg : s.gucs.holds names)
    (hl : lookup_all compdb slots = some cmds)
    (hc : ∀ c ∈ cmds, clean_command env names s c) :
    ∃ s', analyze_files env compdb slots 0 s = some (0, s') ∧ s'.issues = s.issues ∧
      s'.stderr = s.stderr ∧ s'.stdout = s.stdout := by
  induction slots generalizing s cmds with
  | nil => exact ⟨s, rfl, rfl, rfl, rfl⟩
  | cons slot rest ih =>
    match slot, hl with
    | none, hl => simp [lookup_all] at hl
    | some none, hl => simp [lookup_all] at hl
    | some (some file), hl =>
      rw [lookup_all] at hl
      cases hlook : compdb.lookup file with
      | nil => rw [hlook] at hl; simp at hl
      | cons c more =>
        rw [hlook] at hl
        simp only [Option.map_eq_some'] at hl
        obtain ⟨l, hl1, hl2⟩ := hl
        subst hl2
        obtain ⟨s1, ha, a1, a2, a3, a4, a5, a6, a7, _, _⟩ :=
          analyze_clean env c s names (hc c (List.mem_cons_self _ _)) hf hg
        obtain ⟨s2, hw, l1, l2, l3⟩ := ih l s1 a1 (by rw [a2]; exact hg) hl1
          (fun d hd =>
            clean_command_congr env names s s1 d a4 a5 (hc d (List.mem_cons_of_mem _ hd)))
        refine ⟨s2, ?_, l1.trans a3, l2.trans a6, l3.trans a7⟩
        rw [analyze_files, hlook]
        simp only [ha]
        simp [hw]

theorem main_run_clean (env : Env) (compdb : CXCompilationDatabase) (files : vector)
    (s : State) (gcommand : CXCompileCommand) (gf : CStr) (gtu : CXCursor)
    (cmds : List CXCompileCommand)
    (hf : no_fail s) (hi : s.issues = 0)
    (hfind : find_guc_tables compdb.commands none = some gcommand)
    (hgr : env.realpath_compdb gcommand.filename = some gf)
    (hg1 : 1 ≤ gcommand.args.length)
    (hgparse : env.parse gf ((kept_args gcommand).map some) = some gtu)
    (hgok : gtu.children.all table_ok = true)
    (hgn : (extracted_names gtu.children).length < 2 ^ 60)
    (hcmds : run_commands compdb files = some cmds)
    (hclean : ∀ c ∈ cmds, clean_command env (extracted_names gtu.children) s c) :
    ∃ s', main_run env compdb files s = some (0, s') ∧ s'.issues = 0 ∧
      s'.stderr = s.stderr ∧ s'.stdout = s.stdout := by
  obtain ⟨s1, hrd, ⟨hx, hnf⟩, _, _, r3, r4, r5, r6, r7⟩ :=
    read_guc_tables_ok env compdb.commands s gcommand gf gtu hfind hgr hg1 hf hgparse hgok hgn
  have hclean1 : ∀ c ∈ cmds, clean_command env (extracted_names gtu.children) s1 c :=
    fun c hc => clean_command_congr env _ s s1 c r4 r3 (hclean c hc)
  unfold main_run
  rw [hrd]
  unfold run_commands at hcmds
  by_cases hlen : files.len > 0
  · simp only [hlen, if_true] at hcmds ⊢
    obtain ⟨s2, hw, w1, w2, w3⟩ :=
      analyze_files_clean env compdb _ files.slots cmds s1 hnf hx hcmds hclean1
    refine ⟨s2, ?_, by rw [w1, r5, hi], w2.trans r6, w3.trans r7⟩
    rw [hw]
    simp [main_out, w1, r5, hi]
  · simp only [hlen, if_false, Option.some.injEq] at hcmds ⊢
    subst hcmds
    obtain ⟨s2, hw, w1, w2, w3⟩ :=
      analyze_all_clean env _ compdb.commands s1 hnf hx hclean1
    refine ⟨s2, ?_, by rw [w1, r5, hi], w2.trans r6, w3.trans r7⟩
    rw [hw]
    simp [main_out, w1, r5, hi]

theorem field_position_spec (fields : List CStr) (h : "variable_addr".toList ∈ fields) :
    fields.get? (field_position fields) = some "variable_addr".toList ∧
      (∀ j, j < field_position fields → fields.get? j ≠ some "variable_addr".toList) ∧
      field_position fields < fields.length := by
  induction fields with
  | nil => simp at h
  | cons f rest ih =>
    by_cases hf : f = "variable_addr".toList
    · simp only [field_position, hf, if_true]
      exact ⟨rfl, fun j hj => absurd hj (Nat.not_lt_zero j), by simp⟩
    · have hr : "variable_addr".toList ∈ rest := by
        rcases List.mem_cons.mp h with h0 | h0
        · exact absurd h0.symm hf
        · exact h0
      obtain ⟨i1, i2, i3⟩ := ih hr
      simp only [field_position, hf, if_false]
      refine ⟨i1, ?_, by simp only [List.length_cons]; omega⟩
      intro j hj
      cases j with
      | zero =>
        intro h0
        simp only [List.get?] at h0
        exact hf (Option.some.inj h0)
      | succ k => exact i2 k (by omega)

theorem mem_list_entries (cs : List CXCursor) (L entry : CXCursor) (hL : L ∈ cs)
    (hk : L.kind = CXCursorKind.InitListExpr) (he : entry ∈ L.children) :
    entry ∈ list_entries cs := by
  induction cs with
  | nil => simp at hL
  | cons c rest ih =>
    simp only [list_entries, List.mem_append]
    rcases List.mem_cons.mp hL with h0 | h0
    · subst h0
      left
      simpa [hk] using he
    · exact Or.inr (ih h0)

theorem mem_extracted_names (decls : List CXCursor) (T : CXCursor) (v : CStr)
    (hT : T ∈ decls) (hv : v ∈ table_names T) : v ∈ extracted_names decls := by
  induction decls with
  | nil => simp at hT
  | cons c rest ih =>
    simp only [extracted_names, List.mem_append]
    rcases List.mem_cons.mp hT with h0 | h0
    · subst h0
      exact Or.inl hv
    · exact Or.inr (ih h0)

theorem field_name_of_address (u d : CXCursor) (rest : List CXCursor) (v : CStr)
    (huk : u.kind = CXCursorKind.UnaryOperator) (hd : u.children = d :: rest)
    (hv : d.spelling = v ++ "_address".toList) (hvn : ¬ "_address".toList <:+: v) :
    field_name u = some v := by
  unfold field_name
  simp only [huk, if_true, hd, hv, strstr_append_suffix v hvn, Option.map_some',
    List.take_left']

theorem visit_guc_restores (c p : CXCursor) (s : State) (r : CXChildVisitResult × State)
    (h : visit_guc c p s = some r) : r.2.ctx.client_data = s.ctx.client_data := by
  unfold visit_guc at h
  split at h
  · simp at h
  · simp only [Option.map_eq_some'] at h
    obtain ⟨s2, _, h2⟩ := h
    rw [← h2]

theorem visit_guc_tables_restores (c p : CXCursor) (s : State) (r : CXChildVisitResult × State)
    (hg : c.kind = CXCursorKind.VarDecl → c.global_storage = true)
    (h : visit_guc_tables c p s = some r) : r.2.ctx.client_data = s.ctx.client_data := by
  unfold visit_guc_tables at h
  split at h
  · rename_i hk
    simp only [hg hk, Bool.not_true, Bool.false_eq_true, if_false, Option.map_eq_some'] at h
    obtain ⟨s2, _, h2⟩ := h
    rw [← h2]
  · simp only [Option.some.injEq] at h
    rw [← h]

theorem visit_global_variable_restores (c p : CXCursor) (s : State)
    (r : CXChildVisitResult × State)
    (h : visit_global_variable c p s = some r) : r.2.ctx.client_data = s.ctx.client_data := by
  unfold visit_global_variable at h
  split_ifs at h
  · simp only [Option.some.injEq] at h; rw [← h]
  · simp only [Option.some.injEq] at h; rw [← h]
  · simp only [Option.some.injEq] at h; rw [← h]
  · dsimp only at h
    split at h
    · simp at h
    · simp only [Option.some.injEq] at h; rw [← h]
    · split at h
      · simp at h
      · split at h
        · simp at h
        · simp only [Option.some.injEq] at h; rw [← h]

theorem visit_initializer_single_suffix (d p : CXCursor) (s : State) (names : List CStr)
    (v : CStr) (hk : d.kind = CXCursorKind.DeclRefExpr)
    (hv : d.spelling = v ++ "_address".toList) (hvn : ¬ "_address".toList <:+: v)
    (h : extracting s names) (hn : names.length < 2 ^ 60) :
    ∃ s', visit_initializer d p s = some (CXChildVisitResult.Break, s') ∧
      extracting s' (names ++ [v]) ∧ s'.ctx = s.ctx := by
  obtain ⟨s', h1, _, h3, h4, _⟩ :=
    visit_initializer_ok d p s names v.length hk (by rw [hv]; exact strstr_append_suffix v hvn)
      h hn
  refine ⟨s', h1, ?_, h4⟩
  rw [hv, List.take_left'] at h3
  · exact h3
  · rfl

/-! ## The claims -/

/-- C1: a translation unit walked without fail-fast. `quiet` is only ever set together
with `fail_fast` (`getopt_loop_quiet`), `gucs` holds the names `names`, and
`ctx.client_data` is the `&issues` that `main` passes. The walk returns without a
`Break`; the issue counter, an `unsigned int`, grows by the number of top-level
declarations that are variables with global storage in the main file, not named
yy..., not in `names` and without a recognized annotation (exactly so when the
counter does not wrap, modulo 2^32 in any case); standard error gains exactly one
report record for each of them, in order, with its file, line, column and name, and
nothing else. -/
theorem issues_grow_by_unannotated_globals (tu : CXCursor) (s : State) (names : List CStr)
    (hff : s.fail_fast = false)
    (hq : s.quiet = true → s.fail_fast = true)
    (hg : s.gucs.slots = names.map (fun n => some (some n)))
    (hcd : s.ctx.client_data = Ptr.issues) :
    ∃ s', clang_visitChildren visit_translation_unit tu s = some (false, s') ∧
      s'.issues % UINT_MAX1 =
        (s.issues + (tu.children.filter (reportable names)).length) % UINT_MAX1 ∧
      (s.issues + (tu.children.filter (reportable names)).length < UINT_MAX1 →
        s'.issues = s.issues + (tu.children.filter (reportable names)).length) ∧
      s'.stderr = s.stderr ++ (tu.children.filter (reportable names)).map report_of := by
  have hq' : s.quiet = false := by
    cases h : s.quiet with
    | false => rfl
    | true => rw [hq h] at hff; exact absurd hff (by decide)
  rw [clang_visitChildren_eq]
  exact translation_unit_walk tu names tu.children s hff hq' hg hcd

/-- C1 witness: tests/failure/example.c without fail-fast: six issues, one record for
each of the six declarations without an annotation. -/
theorem issues_grow_by_unannotated_globals_witness :
    ∃ s', clang_visitChildren visit_translation_unit example_c (walk_state false false) =
        some (false, s') ∧
      s'.issues = 6 ∧
      s'.stderr =
        [ report_of (var_decl "example.c" "needs_all" 5 5 false []),
          report_of (var_decl "example.c" "static_needs_all" 6 12 false []),
          report_of (var_decl "example.c" "extern_needs_all" 7 12 false []),
          report_of (var_decl "example.c" "needs_annotation" 9 14 true []),
          report_of (var_decl "example.c" "static_needs_annotation" 10 21 true []),
          report_of (var_decl "example.c" "extern_needs_annotation" 11 21 true []) ] := by
  obtain ⟨s', h, _, hx, he⟩ :=
    issues_grow_by_unannotated_globals example_c (walk_state false false) [] rfl (by decide)
      (by decide) rfl
  exact ⟨s', h, (hx (by decide)).trans (by decide), he.trans (by decide)⟩
/-- C2: the annotation check of `visit_global_variable` (the walk of the
declaration's children with `visit_annotation`, started with `annotated = false`)
returns, and leaves `annotated` true exactly when some child is an annotate
attribute whose text is one of the ten entries of `guc_lifetimes`; any other
declaration with the same annotate attribute texts, whatever its other children
and its thread storage, gets the same result. -/
theorem annotation_check_iff_lifetime_tag (cursor : CXCursor) (s : State) :
    ∃ b s', clang_visitChildren visit_annotation cursor
        { s with annotated := false, ctx := { s.ctx with client_data := Ptr.annotated } } =
          some (b, s') ∧
      (s'.annotated = true ↔
        ∃ a ∈ cursor.children, a.kind = CXCursorKind.AnnotateAttr ∧ a.spelling ∈ guc_lifetimes) ∧
      ∀ (other : CXCursor) (t : State),
        (other.children.filter (fun a => decide (a.kind = CXCursorKind.AnnotateAttr))).map
            (fun a => a.spelling) =
          (cursor.children.filter (fun a => decide (a.kind = CXCursorKind.AnnotateAttr))).map
            (fun a => a.spelling) →
        ∃ b2 t', clang_visitChildren visit_annotation other
            { t with annotated := false, ctx := { t.ctx with client_data := Ptr.annotated } } =
              some (b2, t') ∧
          t'.annotated = s'.annotated := by
  refine ⟨_, _, annotation_check_result cursor s, ?_, ?_⟩
  · exact any_lifetime_tag_iff cursor.children
  · intro other t h
    refine ⟨_, _, annotation_check_result other t, ?_⟩
    show recognized other = recognized cursor
    unfold recognized
    rw [any_lifetime_tag_filter, any_lifetime_tag_filter, h]

/-- C3, the code at a failing input: after `--include /pg/contrib --include /pg/src`
(no exclude) the scope check of `analyze` skips /pg/contrib/a.c, whose path starts
with the first include; the run over guc_tables.c and a.c exits 0 with no report,
while with the first include alone it reports the variable `x` of a.c. -/
theorem scope_check_requires_every_include :
    analyze_skip "/pg/contrib/a.c".toList false
        (after_options [Opt.i (some "/pg/contrib".toList), Opt.i (some "/pg/src".toList)]) =
      some true ∧
    ((after_options [Opt.i (some "/pg/contrib".toList), Opt.i (some "/pg/src".toList)]).includes.slots
        = [some (some "/pg/contrib".toList), some (some "/pg/src".toList)] ∧
      (after_options [Opt.i (some "/pg/contrib".toList), Opt.i (some "/pg/src".toList)]).excludes.slots
        = [] ∧
      "/pg/contrib".toList <+: "/pg/contrib/a.c".toList) ∧
    (main pg_env (fun _ => some (database [cc guc_tables_path, cc "/pg/contrib/a.c"]))
        [Opt.i (some "/pg/contrib".toList), Opt.i (some "/pg/src".toList)] ["/pg/build".toList]
        []).map (fun r => (r.1, r.2.issues, r.2.stderr)) = some (0, 0, []) ∧
    (main pg_env (fun _ => some (database [cc guc_tables_path, cc "/pg/contrib/a.c"]))
        [Opt.i (some "/pg/contrib".toList)] ["/pg/build".toList]
        []).map (fun r => (r.1, r.2.issues, r.2.stderr)) =
      some (1, 1, [report_of (var_decl "/pg/contrib/a.c" "x" 1 5 false [])]) := by
  decide!

/-- C4, the code at a failing input: without fail-fast, over guc_tables.c, bad.c (which
does not parse) and good.c (one annotated variable), `main` prints the parse
failure and exits 0; with `-1` the same run exits 1. -/
theorem parse_failure_exit_zero :
    (main pg_env
        (fun _ => some (database [cc guc_tables_path, cc "/pg/src/bad.c", cc "/pg/src/good.c"]))
        [] ["/pg/build".toList] []).map (fun r => (r.1, r.2.issues, r.2.stderr)) =
      some (0, 0, [Output.failed_to_parse]) ∧
    (main pg_env
        (fun _ => some (database [cc guc_tables_path, cc "/pg/src/bad.c", cc "/pg/src/good.c"]))
        [Opt.one] ["/pg/build".toList] []).map (fun r => (r.1, r.2.issues, r.2.stderr)) =
      some (1, 0, [Output.failed_to_parse]) := by
  decide!

/-- C5, the code at a failing input: for a database whose only command is
/pg/src/good.c the search loop of `read_guc_tables` ends on that command,
`read_guc_tables` analyses it and returns true with no name in `gucs`, and `main`
exits 0. -/
theorem read_guc_tables_without_table :
    (find_guc_tables [cc "/pg/src/good.c"] none).map (fun c => c.filename) =
      some "/pg/src/good.c".toList ∧
    (read_guc_tables pg_env [cc "/pg/src/good.c"] (State.init [])).map
        (fun r => (r.1, r.2.gucs.len, r.2.stderr)) = some (true, 0, []) ∧
    (main pg_env (fun _ => some (database [cc "/pg/src/good.c"])) [] ["/pg/build".toList] []).map
        (fun r => (r.1, r.2.issues, r.2.stderr)) = some (0, 0, []) := by
  decide!

/-- C6, the code at a failing input: with `-1`, over guc_tables.c, a.c and b.c, `main`
reports the unannotated `x` of a.c and then still analyses b.c and reports its `y`:
two issues. -/
theorem fail_fast_visits_later_files :
    (main pg_env
        (fun _ => some (database [cc guc_tables_path, cc "/pg/contrib/a.c", cc "/pg/contrib/b.c"]))
        [Opt.one] ["/pg/build".toList] []).map
        (fun r => (r.1, r.2.fail_fast, r.2.issues, r.2.stderr)) =
      some (1, true, 2,
        [ report_of (var_decl "/pg/contrib/a.c" "x" 1 5 false []),
          report_of (var_decl "/pg/contrib/b.c" "y" 1 5 false []) ]) := by
  decide!

/-- C7 counterexample: tests/failure/example.c, which has six unannotated globals,
walked in fail-fast mode with `quiet` set (as `-q` does): the walk ends with a
`Break`, the counter is 1, and standard error holds no report record. -/
theorem fail_fast_quiet_no_report :
    (walk_state true true).fail_fast = true ∧
    2 ≤ (example_c.children.filter (reportable [])).length ∧
    (clang_visitChildren visit_translation_unit example_c (walk_state true true)).map
        (fun r => (r.1, r.2.issues, r.2.stderr)) = some (true, 1, []) := by
  decide!

/-- C7 as amended: in fail-fast mode, a translation unit whose top-level declarations
have `first` as the first one to report (and `rest` after it): the walk ends with a
`Break` at `first`, the issue counter, an `unsigned int`, grows by one (exactly so
when it does not wrap), and standard error gains the one report record of `first`
unless `quiet` is set, in which case it gains nothing. -/
theorem fail_fast_stops_at_first (tu : CXCursor) (s : State) (names : List CStr)
    (first : CXCursor) (rest : List CXCursor)
    (hff : s.fail_fast = true)
    (hg : s.gucs.slots = names.map (fun n => some (some n)))
    (hcd : s.ctx.client_data = Ptr.issues)
    (hne : tu.children.filter (reportable names) = first :: rest) :
    ∃ s', clang_visitChildren visit_translation_unit tu s = some (true, s') ∧
      s'.issues = (s.issues + 1) % UINT_MAX1 ∧
      (s.issues + 1 < UINT_MAX1 → s'.issues = s.issues + 1) ∧
      s'.stderr = (if s.quiet then s.stderr else s.stderr ++ [report_of first]) := by
  rw [clang_visitChildren_eq]
  obtain ⟨s', h1, h2, h3⟩ :=
    translation_unit_walk_fail_fast tu names tu.children s first rest hff hg hcd hne
  exact ⟨s', h1, h2, fun hlt => by rw [h2, Nat.mod_eq_of_lt hlt], h3⟩

/-- C7 witness: tests/failure/example.c with `-1` and without `-q`: one issue, the
record of `needs_all`. -/
theorem fail_fast_stops_at_first_witness :
    ∃ s', clang_visitChildren visit_translation_unit example_c (walk_state true false) =
        some (true, s') ∧
      s'.issues = 1 ∧
      s'.stderr = [report_of (var_decl "example.c" "needs_all" 5 5 false [])] := by
  obtain ⟨s', h, hi, _, he⟩ :=
    fail_fast_stops_at_first example_c (walk_state true false) []
      (var_decl "example.c" "needs_all" 5 5 false [])
      [ var_decl "example.c" "static_needs_all" 6 12 false [],
        var_decl "example.c" "extern_needs_all" 7 12 false [],
        var_decl "example.c" "needs_annotation" 9 14 true [],
        var_decl "example.c" "static_needs_annotation" 10 21 true [],
        var_decl "example.c" "extern_needs_annotation" 11 21 true [] ]
      rfl rfl rfl rfl
  exact ⟨s', h, hi.trans (by decide), he.trans (by decide)⟩

/-- C8, the code at a failing input: after `--include /pg/contrib --include /pg/src
--exclude /pg` the normalization of `main` sets the exclude entry to NULL for the
first include and hands that NULL to `strlen` for the second: the normalization,
and `main`, do not return. With the first include alone the entry is set to NULL
and the normalization returns. -/
theorem normalization_null_strlen :
    normalize_includes
        (after_options [Opt.i (some "/pg/contrib".toList), Opt.i (some "/pg/src".toList),
          Opt.e (some "/pg".toList)]).includes.slots
        (after_options [Opt.i (some "/pg/contrib".toList), Opt.i (some "/pg/src".toList),
          Opt.e (some "/pg".toList)]).excludes = none ∧
    (main pg_env (fun _ => some (database [cc guc_tables_path, cc "/pg/contrib/a.c"]))
        [Opt.i (some "/pg/contrib".toList), Opt.i (some "/pg/src".toList), Opt.e (some "/pg".toList)]
        ["/pg/build".toList] []).map (fun r => r.1) = none ∧
    (normalize_includes
        (after_options [Opt.i (some "/pg/contrib".toList), Opt.e (some "/pg".toList)]).includes.slots
        (after_options [Opt.i (some "/pg/contrib".toList), Opt.e (some "/pg".toList)]).excludes).map
        (fun v => v.slots) = some [some none] := by
  decide!

/-- C9: with the one include path `incl` and the one exclude path `excl`, a prefix
of `incl`, the normalization of `main` returns, and afterwards the scope check of
`analyze` keeps every file whose path starts with `incl` and skips every file whose
path starts with `excl` but not with `incl`. -/
theorem include_wins_over_exclude (incl excl path : CStr) (s : State)
    (hp : excl <+: incl)
    (hi : s.includes = path_vector incl)
    (he : s.excludes = path_vector excl) :
    ∃ excludes1, normalize_includes s.includes.slots s.excludes = some excludes1 ∧
      (incl <+: path →
        analyze_skip path false { s with excludes := excludes1 } = some false) ∧
      (excl <+: path → ¬ incl <+: path →
        analyze_skip path false { s with excludes := excludes1 } = some true) := by
  have hlen : strlen excl ≤ strlen incl := hp.length_le
  have hcmp : strncmp excl incl (strlen excl) = 0 := (strncmp_own_strlen_iff excl incl).mpr hp
  refine ⟨⟨[none, none, none, none], 4, 1⟩, ?_, ?_, ?_⟩
  · rw [hi, he, path_vector_eq, path_vector_eq]
    simp [vector.slots, List.range, List.range.loop, normalize_includes, normalize_excludes,
      hlen, hcmp]
  · intro h
    have hc : strncmp path incl (strlen incl) = 0 := (strncmp_strlen_iff path incl).mpr h
    simp [analyze_skip, hi, path_vector_eq, vector.slots, List.range, List.range.loop,
      includes_loop, excludes_loop, hc]
  · intro _ h
    have hc : strncmp path incl (strlen incl) ≠ 0 :=
      fun h0 => h ((strncmp_strlen_iff path incl).mp h0)
    simp [analyze_skip, hi, path_vector_eq, vector.slots, List.range, List.range.loop,
      includes_loop, hc]

/-- C9 witness: include /a/b and exclude /a: the file /a/b/c is kept and the file /a/d
is skipped. -/
theorem include_wins_over_exclude_witness :
    (∃ excludes1, normalize_includes (scope_state "/a/b" "/a").includes.slots
        (scope_state "/a/b" "/a").excludes = some excludes1 ∧
      analyze_skip "/a/b/c".toList false
        { scope_state "/a/b" "/a" with excludes := excludes1 } = some false) ∧
    (∃ excludes1, normalize_includes (scope_state "/a/b" "/a").includes.slots
        (scope_state "/a/b" "/a").excludes = some excludes1 ∧
      analyze_skip "/a/d".toList false
        { scope_state "/a/b" "/a" with excludes := excludes1 } = some true) := by
  obtain ⟨e1, hn1, hin, _⟩ := include_wins_over_exclude "/a/b".toList "/a".toList "/a/b/c".toList
    (scope_state "/a/b" "/a") (by decide) rfl rfl
  obtain ⟨e2, hn2, _, hout⟩ := include_wins_over_exclude "/a/b".toList "/a".toList "/a/d".toList
    (scope_state "/a/b" "/a") (by decide) rfl rfl
  exact ⟨⟨e1, hn1, hin (by decide)⟩, ⟨e2, hn2, hout (by decide) (by decide)⟩⟩

/-- C10 counterexample: the command `cc -Wall -c /pg/contrib/a.c` has four arguments,
and when the `malloc` of `vector_init` fails `copy_args` returns false; with an
allocator that does not fail it returns true with `cc` and `-c`. -/
theorem copy_args_out_of_memory :
    1 ≤ (cc "/pg/contrib/a.c").args.length ∧
    (copy_args (cc "/pg/contrib/a.c") vector.zero (State.init [false])).map (fun r => r.1) =
      some false ∧
    (copy_args (cc "/pg/contrib/a.c") vector.zero (State.init [])).map
        (fun r => (r.1, r.2.1.data.take r.2.1.len)) =
      some (true, [some "cc".toList, some "-c".toList]) := by
  decide!

/-- C10 as amended: for a compile command with at least one argument `copy_args`
returns; it returns true exactly when none of its allocation requests fails (the
`malloc` of `vector_init` and one `strdup` for each argument kept), and then the
vector holds exactly the arguments of the command, in their order, without the
last one and without those that begin with "-W". -/
theorem copy_args_keeps_args (command : CXCompileCommand) (args : vector) (s : State)
    (h1 : 1 ≤ command.args.length) :
    ∃ ok v s', copy_args command args s = some (ok, v, s') ∧
      (ok = true ↔ (s.heap.take ((kept_args command).length + 1)).all id = true) ∧
      (ok = true →
        v.len = (kept_args command).length ∧
        v.data.take v.len = (kept_args command).map some) :=
  copy_args_spec command args s h1

/-- C10 witness: the command `cc -Wall -c /pg/contrib/a.c` with an allocator that does
not fail. -/
theorem copy_args_keeps_args_witness :
    ∃ ok v s', copy_args (cc "/pg/contrib/a.c") vector.zero (State.init []) = some (ok, v, s') ∧
      (ok = true ↔
        ((State.init []).heap.take ((kept_args (cc "/pg/contrib/a.c")).length + 1)).all id = true) ∧
      (ok = true →
        v.len = (kept_args (cc "/pg/contrib/a.c")).length ∧
        v.data.take v.len = (kept_args (cc "/pg/contrib/a.c")).map some) :=
  copy_args_keeps_args (cc "/pg/contrib/a.c") vector.zero (State.init []) (by decide)

/-- C11, the code at a failing input: for the identifier `ip_address_address`, which ends
with "_address", `strstr` finds the first "_address" and `visit_initializer` appends
`ip`; the name without its final "_address" is `ip_address`. For an identifier `v`
followed by "_address" where `v` has no "_address" in it, with `gucs` holding fewer
than 2^60 names and no allocation failing, `visit_initializer` returns and appends
`v`. -/
theorem visit_initializer_first_occurrence :
    (strstr "ip_address_address".toList "_address".toList = some 2 ∧
      "ip_address_address".toList = "ip_address".toList ++ "_address".toList ∧
      (visit_initializer (expr CXCursorKind.DeclRefExpr "ip_address_address" [])
          (expr CXCursorKind.UnaryOperator "" []) extraction_state).map
          (fun r => (r.1, r.2.gucs.data.take r.2.gucs.len, r.2.ctx.err)) =
        some (CXChildVisitResult.Break, [some "ip".toList], 0)) ∧
    (∀ (d p : CXCursor) (s : State) (names : List CStr) (v : CStr),
      d.kind = CXCursorKind.DeclRefExpr → d.spelling = v ++ "_address".toList →
      ¬ "_address".toList <:+: v → extracting s names → names.length < 2 ^ 60 →
      ∃ s', visit_initializer d p s = some (CXChildVisitResult.Break, s') ∧
        extracting s' (names ++ [v]) ∧ s'.ctx = s.ctx) := by
  refine ⟨by decide!, ?_⟩
  intro d p s names v hk hv hvn h hn
  exact visit_initializer_single_suffix d p s names v hk hv hvn h hn

/-- C12 counterexample: the entry of guc_tables.c whose address field is
`&work_mem_address` references the variable `work_mem_address`; after the extraction
the exception names are `work_mem` alone, and the run over guc_tables.c and
/pg/src/w.c, which declares `work_mem` and `work_mem_address` without annotation,
reports the global named `work_mem_address` and exits 1. -/
theorem address_name_not_excepted :
    (entry_field 1 work_mem_entry).map
        (fun u => (u.kind, u.children.map (fun d => (d.kind, d.spelling)))) =
      some (CXCursorKind.UnaryOperator,
        [(CXCursorKind.DeclRefExpr, "work_mem_address".toList)]) ∧
    (read_guc_tables address_env [cc guc_tables_path, cc "/pg/src/w.c"] (State.init [])).map
        (fun r => (r.1, r.2.gucs.data.take r.2.gucs.len)) =
      some (true, [some "work_mem".toList]) ∧
    (main address_env (fun _ => some (database [cc guc_tables_path, cc "/pg/src/w.c"]))
        [] ["/pg/build".toList] []).map (fun r => (r.1, r.2.issues, r.2.stderr)) =
      some (1, 1, [report_of (var_decl "/pg/src/w.c" "work_mem_address" 2 5 false [])]) := by
  decide!

/-- C12 as amended: guc_tables.c resolves and parses, no allocation fails, every
entry of its tables is well formed (`table_ok`), and fewer than 2^60 names are
extracted. For an entry of one of the five tables whose address field (the child at
the position of `variable_addr`) is a unary operator on the identifier `v` followed
by "_address", where `v` itself has no "_address" in it: `read_guc_tables` returns
true, the exception name set then contains `v`, and the walk of any translation
unit in a state with that set returns and neither counts nor reports a declaration
named `v`: the declarations it counts and reports are top-level declarations of the
unit with another name. -/
theorem address_entry_suppresses_report (env : Env) (commandv : List CXCompileCommand)
    (s : State) (command : CXCompileCommand) (f : CStr) (tu T L entry u d : CXCursor)
    (rest : List CXCursor) (v : CStr)
    (hfind : find_guc_tables commandv none = some command)
    (hr : env.realpath_compdb command.filename = some f)
    (h1 : 1 ≤ command.args.length) (hf : no_fail s)
    (hparse : env.parse f ((kept_args command).map some) = some tu)
    (hok : tu.children.all table_ok = true)
    (hn : (extracted_names tu.children).length < 2 ^ 60)
    (hT : T ∈ tu.children) (hTt : is_guc_table T = true)
    (hL : L ∈ T.children) (hLk : L.kind = CXCursorKind.InitListExpr) (he : entry ∈ L.children)
    (hu : entry_field (table_index T) entry = some u)
    (huk : u.kind = CXCursorKind.UnaryOperator) (hd : u.children = d :: rest)
    (hv : d.spelling = v ++ "_address".toList) (hvn : ¬ "_address".toList <:+: v) :
    ∃ s', read_guc_tables env commandv s = some (true, s') ∧
      some v ∈ s'.gucs.data.take s'.gucs.len ∧
      ∀ (tu2 : CXCursor) (t : State), t.gucs = s'.gucs → t.ctx.client_data = Ptr.issues →
        ∃ (b : Bool) (t' : State) (reported : List CXCursor),
          clang_visitChildren visit_translation_unit tu2 t = some (b, t') ∧
          reported.Sublist tu2.children ∧ (∀ c ∈ reported, c.spelling ≠ v) ∧
          t'.stderr = t.stderr ++ (if t.quiet then [] else reported.map report_of) ∧
          t'.issues % UINT_MAX1 = (t.issues + reported.length) % UINT_MAX1 := by
  obtain ⟨s', hrd, ⟨hx, _⟩, _⟩ :=
    read_guc_tables_ok env commandv s command f tu hfind hr h1 hf hparse hok hn
  have hname : entry_name (table_index T) entry = some v := by
    unfold entry_name
    rw [hu]
    exact field_name_of_address u d rest v huk hd hv hvn
  have hmem : v ∈ extracted_names tu.children := by
    apply mem_extracted_names tu.children T v hT
    unfold table_names
    simp only [hTt, if_true, List.mem_filterMap]
    exact ⟨entry, mem_list_entries T.children L entry hL hLk he, hname⟩
  refine ⟨s', hrd, ?_, ?_⟩
  · rw [hx.2.1]
    exact List.mem_map.mpr ⟨v, hmem, rfl⟩
  · intro tu2 t ht hcd
    rw [clang_visitChildren_eq]
    obtain ⟨b, t', hw, _, _, _, _, _, _, _, _, rep, hsub, hse, him, _⟩ :=
      translation_unit_walk_frame tu2 (extracted_names tu.children) tu2.children t
        (by rw [ht]; exact holds_slots _ _ hx) hcd
    refine ⟨b, t', rep, hw, hsub.trans (List.filter_sublist _), ?_, hse, him⟩
    intro c hc hcv
    have hc2 : c ∈ tu2.children.filter (reportable (extracted_names tu.children)) :=
      hsub.subset hc
    have hc3 := (List.mem_filter.mp hc2).2
    simp only [reportable, Bool.and_eq_true, Bool.not_eq_true', decide_eq_false_iff_not,
      decide_eq_true_eq] at hc3
    exact hc3.1.2 (by rw [hcv]; exact hmem)

/-- C12 witness: guc_tables.c with the entry for `&work_mem_address`: the set
contains `work_mem`, and the walk of a unit with an unannotated `work_mem` reports
only declarations with another name. -/
theorem address_entry_suppresses_report_witness :
    ∃ s', read_guc_tables pg_env [cc guc_tables_path] (State.init []) = some (true, s') ∧
      some "work_mem".toList ∈ s'.gucs.data.take s'.gucs.len ∧
      ∃ (b : Bool) (t' : State) (reported : List CXCursor),
        clang_visitChildren visit_translation_unit (unannotated_unit "/pg/src/m.c" "work_mem")
            { s' with ctx := ⟨0, Ptr.issues⟩ } = some (b, t') ∧
          reported.Sublist (unannotated_unit "/pg/src/m.c" "work_mem").children ∧
          (∀ c ∈ reported, c.spelling ≠ "work_mem".toList) ∧
          t'.stderr = s'.stderr ++ (if s'.quiet then [] else reported.map report_of) ∧
          t'.issues % UINT_MAX1 = (s'.issues + reported.length) % UINT_MAX1 := by
  obtain ⟨s', h1, h2, h3⟩ :=
    address_entry_suppresses_report pg_env [cc guc_tables_path] (State.init [])
      (cc guc_tables_path) guc_tables_path.toList guc_tables_c names_int_table names_int_list
      work_mem_entry
      (expr CXCursorKind.UnaryOperator "" [expr CXCursorKind.DeclRefExpr "work_mem_address" []])
      (expr CXCursorKind.DeclRefExpr "work_mem_address" []) [] "work_mem".toList
      rfl (by decide) (by decide) (by intro b hb; cases hb) rfl (by decide)
      (by decide) (List.mem_cons_self _ _) (by decide)
      (List.mem_cons_of_mem _ (List.mem_cons_self _ _)) rfl (List.mem_cons_self _ _)
      rfl rfl rfl (by decide) (by decide)
  exact ⟨s', h1, h2, h3 (unannotated_unit "/pg/src/m.c" "work_mem")
    { s' with ctx := ⟨0, Ptr.issues⟩ } rfl rfl⟩

/-- C13 counterexample: in `clean_env` every file parses and no file has a
declaration to report (each variable is annotated or named by guc_tables.c), yet
the run with the FILE arguments /pg/src/good.c and /pg/src/m.c over a database that
has no command for m.c analyses good.c, finds nothing, and exits 1 with no issue
counted. -/
theorem clean_files_exit_one :
    ([guc_tables_c, annotated_unit "/pg/src/good.c" "z",
        unannotated_unit "/pg/src/m.c" "work_mem"].map
      (fun tu => (tu.children.filter (reportable ["work_mem".toList])).length)) = [0, 0, 0] ∧
    (main clean_env (fun _ => some (database [cc guc_tables_path, cc "/pg/src/good.c"]))
        [] ["/pg/build".toList, "/pg/src/good.c".toList, "/pg/src/m.c".toList] []).map
        (fun r => (r.1, r.2.issues, r.2.stderr)) =
      some (1, 0, [Output.failed_to_find (some "/pg/src/m.c".toList)]) := by
  decide!

/-- C13 as amended: the part of `main` from `read_guc_tables` on, entered with no
issue counted. No allocation fails; guc_tables.c resolves and parses, every entry
of its tables is well formed and fewer than 2^60 names are extracted; the
database has a command for each FILE argument; and each command the run analyses
is clean: its file resolves, the scope check returns, and when the file is in
scope the command has an argument and the file parses to a translation unit whose
top-level declarations are all annotated with a recognized tag, named in the
exception set, or not eligible. Then the run returns with exit status 0, the final
issue count is 0, and nothing is written. -/
theorem clean_run_exits_zero (env : Env) (compdb : CXCompilationDatabase) (files : vector)
    (s : State) (gcommand : CXCompileCommand) (gf : CStr) (gtu : CXCursor)
    (cmds : List CXCompileCommand)
    (hf : no_fail s) (hi : s.issues = 0)
    (hfind : find_guc_tables compdb.commands none = some gcommand)
    (hgr : env.realpath_compdb gcommand.filename = some gf)
    (hg1 : 1 ≤ gcommand.args.length)
    (hgparse : env.parse gf ((kept_args gcommand).map some) = some gtu)
    (hgok : gtu.children.all table_ok = true)
    (hgn : (extracted_names gtu.children).length < 2 ^ 60)
    (hcmds : run_commands compdb files = some cmds)
    (hclean : ∀ c ∈ cmds, clean_command env (extracted_names gtu.children) s c) :
    ∃ s', main_run env compdb files s = some (0, s') ∧ s'.issues = 0 ∧
      s'.stderr = s.stderr ∧ s'.stdout = s.stdout :=
  main_run_clean env compdb files s gcommand gf gtu cmds hf hi hfind hgr hg1 hgparse hgok hgn
    hcmds hclean

/-- C13 witness: `clean_env` with a database that has a command for each of its
three files, no FILE argument: exit status 0 and no issue, for the part of `main`
from `read_guc_tables` on and for the whole of `main`. -/
theorem clean_run_exits_zero_witness :
    (∃ s', main_run clean_env
        (database [cc guc_tables_path, cc "/pg/src/good.c", cc "/pg/src/m.c"])
        vector.zero (State.init []) = some (0, s') ∧
      s'.issues = 0 ∧ s'.stderr = [] ∧ s'.stdout = []) ∧
    (main clean_env
        (fun _ => some (database [cc guc_tables_path, cc "/pg/src/good.c", cc "/pg/src/m.c"]))
        [] ["/pg/build".toList] []).map (fun r => (r.1, r.2.issues, r.2.stderr)) =
      some (0, 0, []) :=
  ⟨clean_run_exits_zero clean_env
    (database [cc guc_tables_path, cc "/pg/src/good.c", cc "/pg/src/m.c"])
    vector.zero (State.init []) (cc guc_tables_path) guc_tables_path.toList guc_tables_c
    [cc guc_tables_path, cc "/pg/src/good.c", cc "/pg/src/m.c"]
    (by intro b hb; cases hb) rfl rfl (by decide) (by decide) rfl (by decide) (by decide) rfl
    (by
      intro c hc
      simp only [List.mem_cons, List.mem_singleton, List.not_mem_nil, or_false] at hc
      rcases hc with h | h | h
      · subst h
        exact ⟨guc_tables_path.toList, rfl, Or.inr ⟨by decide, by decide, guc_tables_c, rfl,
          rfl⟩⟩
      · subst h
        exact ⟨"/pg/src/good.c".toList, rfl, Or.inr ⟨by decide, by decide,
          annotated_unit "/pg/src/good.c" "z", rfl, rfl⟩⟩
      · subst h
        exact ⟨"/pg/src/m.c".toList, rfl, Or.inr ⟨by decide, by decide,
          unannotated_unit "/pg/src/m.c" "work_mem", rfl, rfl⟩⟩),
   by decide!⟩

/-- C14, the code at a failing input: `visit_guc_tables` called with
`ctx->client_data = NULL` (as `read_guc_tables` passes it) on a variable declaration
without global storage returns with `ctx->client_data` pointing to its own
`field_index`; on a declaration with global storage it returns with NULL again.
Every other return of `visit_guc_tables`, and every return of `visit_guc` and of
`visit_global_variable`, leaves `ctx->client_data` as it was on entry. -/
theorem visit_guc_tables_leaves_client_data :
    ((State.init []).ctx.client_data = Ptr.null ∧
      (visit_guc_tables local_var (translation_unit "guc_tables.c" []) (State.init [])).map
          (fun r => (r.1, r.2.ctx.client_data)) =
        some (CXChildVisitResult.Continue, Ptr.field_index) ∧
      (visit_guc_tables (var_decl "guc_tables.c" "local" 10 9 false [])
          (translation_unit "guc_tables.c" []) (State.init [])).map
          (fun r => (r.1, r.2.ctx.client_data)) =
        some (CXChildVisitResult.Continue, Ptr.null)) ∧
    (∀ (c p : CXCursor) (s : State) (r : CXChildVisitResult × State),
      (c.kind = CXCursorKind.VarDecl → c.global_storage = true) →
      visit_guc_tables c p s = some r → r.2.ctx.client_data = s.ctx.client_data) ∧
    (∀ (c p : CXCursor) (s : State) (r : CXChildVisitResult × State),
      visit_guc c p s = some r → r.2.ctx.client_data = s.ctx.client_data) ∧
    (∀ (c p : CXCursor) (s : State) (r : CXChildVisitResult × State),
      visit_global_variable c p s = some r → r.2.ctx.client_data = s.ctx.client_data) := by
  refine ⟨by decide, ?_, ?_, ?_⟩
  · intro c p s r hg h
    exact visit_guc_tables_restores c p s r hg h
  · intro c p s r h
    exact visit_guc_restores c p s r h
  · intro c p s r h
    exact visit_global_variable_restores c p s r h

/-- C15: a record type that has a field named `variable_addr` and fewer than 2^32
fields. The field scan of `visit_guc_tables` (started with `field_index = 0`)
returns and leaves `field_index` at the zero-based position of the first field
named `variable_addr`. For every entry record (an initializer list) `visit_guc`
then returns `Continue` and looks at the child at that position only: when that
child is a unary operator the result is that of the walk of it with
`visit_initializer`; when it is of another kind, or the record has no more than
that many children, `gucs` is left as it was. -/
theorem field_scan_finds_variable_addr (fields : List CStr) (s : State)
    (hm : "variable_addr".toList ∈ fields) (hl : fields.length < UINT_MAX1) :
    ∃ s1, clang_Type_visitFields visit_config_type fields
        { s with field_index := 0, ctx := { s.ctx with client_data := Ptr.field_index } } =
          some s1 ∧
      fields.get? s1.field_index = some "variable_addr".toList ∧
      (∀ j, j < s1.field_index → fields.get? j ≠ some "variable_addr".toList) ∧
      s1.ctx.client_data = Ptr.field_index ∧ s1.gucs = s.gucs ∧
      ∀ (entry p : CXCursor) (t : State), entry.kind = CXCursorKind.InitListExpr →
        t.ctx.client_data = Ptr.field_index → t.field_index = s1.field_index →
        (∀ c, entry.children.get? s1.field_index = some c →
          c.kind = CXCursorKind.UnaryOperator →
          visit_guc entry p t =
            (clang_visitChildren visit_initializer c
              { t with iter := ⟨s1.field_index, s1.field_index⟩,
                       ctx := { t.ctx with client_data := Ptr.iter } }).map
              (fun r => (CXChildVisitResult.Continue,
                { r.2 with ctx := { r.2.ctx with client_data := Ptr.field_index } }))) ∧
        (∀ c, entry.children.get? s1.field_index = some c →
          c.kind ≠ CXCursorKind.UnaryOperator →
          ∃ t', visit_guc entry p t = some (CXChildVisitResult.Continue, t') ∧
            t'.gucs = t.gucs) ∧
        (entry.children.length ≤ s1.field_index →
          ∃ t', visit_guc entry p t = some (CXChildVisitResult.Continue, t') ∧
            t'.gucs = t.gucs) := by
  obtain ⟨p1, p2, p3⟩ := field_position_spec fields hm
  have hk : field_position fields < UINT_MAX1 := by omega
  refine ⟨_, config_type_scan fields _ rfl (show (0 : Nat) < UINT_MAX1 by decide), ?_, ?_, rfl,
    rfl, ?_⟩
  · simp only [Nat.zero_add, Nat.mod_eq_of_lt hk]
    exact p1
  · simp only [Nat.zero_add, Nat.mod_eq_of_lt hk]
    exact p2
  · simp only [Nat.zero_add, Nat.mod_eq_of_lt hk]
    intro entry p t hi hcd hfi
    have hkt : t.field_index < UINT_MAX1 := by rw [hfi]; exact hk
    have hef : entry_field t.field_index entry = entry.children.get? (field_position fields) := by
      unfold entry_field
      rw [hfi]
      simp [hi]
    refine ⟨?_, ?_, ?_⟩
    · intro c hc hu
      rw [visit_guc_descend entry p c t hcd hkt (hef.trans hc) hu, hfi]
    · intro c hc hu
      obtain ⟨it, hv⟩ := visit_guc_skip entry p t hcd hkt (by
        intro c2 hc2
        rw [hef, hc] at hc2
        rw [← Option.some.inj hc2]
        exact hu)
      exact ⟨_, hv, rfl⟩
    · intro hlen
      obtain ⟨it, hv⟩ := visit_guc_skip entry p t hcd hkt (by
        intro c2 hc2
        rw [hef, List.get?_eq_none.mpr hlen] at hc2
        exact absurd hc2 (by simp))
      exact ⟨_, hv, rfl⟩

/-- C15 witness: the record type of `guc_tables_c`, whose second field is
`variable_addr`: the scan leaves `field_index` at 1; the entry for
`&work_mem_address` has a unary operator there, the terminating entry has not. -/
theorem field_scan_finds_variable_addr_witness :
    ∃ s1, clang_Type_visitFields visit_config_type names_int_table.element_fields
        { State.init [] with field_index := 0,
                             ctx := { (State.init []).ctx with client_data := Ptr.field_index } } =
          some s1 ∧
      s1.field_index = 1 ∧
      (visit_guc work_mem_entry names_int_list s1).map (fun r => (r.1, r.2.gucs.len)) =
        some (CXChildVisitResult.Continue, 1) ∧
      ∃ t', visit_guc last_entry names_int_list s1 = some (CXChildVisitResult.Continue, t') ∧
        t'.gucs = s1.gucs := by
  obtain ⟨s1, h1, h2, h3, h4, h5, h6⟩ :=
    field_scan_finds_variable_addr names_int_table.element_fields (State.init []) (by decide)
      (by decide)
  have he : clang_Type_visitFields visit_config_type names_int_table.element_fields
      { State.init [] with ctx := ⟨0, Ptr.field_index⟩, field_index := 0 } =
        some { State.init [] with ctx := ⟨0, Ptr.field_index⟩, field_index := 1 } := by decide
  have hs : s1 = { State.init [] with ctx := ⟨0, Ptr.field_index⟩, field_index := 1 } :=
    Option.some.inj (h1.symm.trans he)
  refine ⟨s1, h1, by rw [hs], ?_, ?_⟩
  · rw [hs]; decide
  · exact (h6 last_entry names_int_list s1 rfl h4 rfl).2.1
      (expr CXCursorKind.Other "" []) (by rw [hs]; rfl) (by decide)

/-- C16, the code at a failing input: a full vector (`len = cap = 4`, four slots) and a
`realloc` that fails: `vector_append` returns false, the items and `len` are kept, but
`cap` is 8 while four slots are allocated. So it is for every full vector: when
`realloc` fails `cap` is left doubled. With a `realloc` that succeeds the same call
stores the item at index 4 in eight slots. -/
theorem vector_append_failure_doubles_cap :
    ((0 < full_vector.cap ∧ full_vector.len ≤ full_vector.cap ∧
        full_vector.cap ≤ full_vector.data.length) ∧
      vector_append full_vector (some "/e".toList) false =
        (false, { data := full_vector.data, cap := 8, len := 4 }) ∧
      (vector_append full_vector (some "/e".toList) false).2.data.length = 4 ∧
      (vector_append full_vector (some "/e".toList) true).2 =
        { data := full_vector.data ++ [some "/e".toList, none, none, none], cap := 8,
          len := 5 }) ∧
    (∀ (vec : vector) (item : CharPtr), vec.len = vec.cap → vec.cap < 2 ^ 63 →
      vector_append vec item false = (false, { vec with cap := vec.cap * 2 })) := by
  refine ⟨by decide, ?_⟩
  intro vec item hf hc
  have h2 : (vec.cap * 2) % SIZE_MAX1 = vec.cap * 2 := by
    unfold SIZE_MAX1; omega
  simp [vector_append, hf, h2]

end PgGucLifetimes
